import Mathlib

/-!
Verification of the jsonschema reflection engine (Go package `jsonschema`).

This file shallowly embeds the parts of `reflect.go`, `schema.go` and
`properties.go` needed to settle the frozen claims: the annotation-string
splitter, field-name/requiredness resolution, the fueled type walker with its
definitions registry, the configuration fingerprint, the bounded LRU schema
cache, and the store-based deep-clone used by the cache.

Go machine integers are modelled as `Nat` with explicit reduction modulo
`2 ^ 64` where overflow matters; Go strings are modelled as Lean `String`
(byte-level operations act on the character list, which coincides with the
byte view for the ASCII inputs the library manipulates); Go `panic` is
modelled by an explicit error result.
-/

/-! ## Annotation splitter (`splitOnUnescapedCommas`, reflect.go)

The Go loop walks the bytes of the tag string keeping a token buffer `buf` and
a flag `prevEsc` recording whether the previous byte was a backslash.  A comma
ends the current token unless `prevEsc` is set, in which case the trailing
backslash is dropped from the buffer and the comma is appended literally. -/

def splitGo : List Char → List Char → Bool → List String
  | [], buf, _ => [String.mk buf]
  | ch :: rest, buf, prevEsc =>
    if ch = ',' then
      if prevEsc then
        splitGo rest (buf.dropLast ++ [',']) false
      else
        String.mk buf :: splitGo rest [] false
    else
      splitGo rest (buf ++ [ch]) (ch = '\\')

def splitOnUnescapedCommas (tagString : String) : List String :=
  if tagString = "" then [""]
  else splitGo tagString.data [] false

/-! ## JSON values

Go stores tag-derived values (`Default`, `Examples`, `Enum`, `Extras`) as
`any`; the values the engine actually produces are strings, numbers (kept as
their `json.Number` source string), booleans and arrays of such. -/

inductive JVal where
  | str (s : String)
  | num (s : String)
  | boolean (b : Bool)
  | arr (xs : List JVal)

/-! ## Go types

`reflect.Type` is modelled by `GoType`.  Named struct types are represented by
`GoType.named` pointing into an environment `Env` of struct declarations, so
that recursive (self-referential) type graphs are expressible.  The special
types the engine compares by identity (`time.Time`, `url.URL`, `net.IP`,
`json.RawMessage`) get their own constructors.  Primitive kinds carry the kind
tags of `reflect.Kind` that the dispatch switch distinguishes; `uintptrT`,
`complex64T`, `complex128T`, `chanT` and `funcT` are kinds the switch does not
handle (they hit the `default: panic` arm). -/

inductive PrimKind where
  | int | int8 | int16 | int32 | int64
  | uint | uint8 | uint16 | uint32 | uint64
  | float32 | float64
  | boolK | stringK
  | uintptrT | complex64T | complex128T | chanT | funcT
deriving DecidableEq, Repr

inductive GoType where
  | ptr (elem : GoType)
  | named (name : String)
  | timeT
  | uriT
  | ipT
  | rawMessageT
  | sliceT (elem : GoType)
  | arrayT (size : Nat) (elem : GoType)
  | mapT (key elem : GoType)
  | interfaceT
  | prim (k : PrimKind)
deriving DecidableEq, Repr

/-- The kinds of `reflect.Kind` the engine inspects. -/
inductive GoKind where
  | ptrK | structK | sliceK | arrayK | mapK | interfaceK
  | intK | int8K | int16K | int32K | int64K
  | uintK | uint8K | uint16K | uint32K | uint64K
  | float32K | float64K | boolKK | stringKK
  | uintptrK | complex64K | complex128K | chanK | funcK
deriving DecidableEq, Repr

def PrimKind.kind : PrimKind → GoKind
  | .int => .intK | .int8 => .int8K | .int16 => .int16K
  | .int32 => .int32K | .int64 => .int64K
  | .uint => .uintK | .uint8 => .uint8K | .uint16 => .uint16K
  | .uint32 => .uint32K | .uint64 => .uint64K
  | .float32 => .float32K | .float64 => .float64K
  | .boolK => .boolKK | .stringK => .stringKK
  | .uintptrT => .uintptrK | .complex64T => .complex64K
  | .complex128T => .complex128K | .chanT => .chanK | .funcT => .funcK

/-- `t.Kind()`.  `time.Time` and `url.URL` are struct types; `net.IP` and
`json.RawMessage` are named slice-of-byte types. -/
def GoType.kind : GoType → GoKind
  | .ptr _ => .ptrK
  | .named _ => .structK
  | .timeT => .structK
  | .uriT => .structK
  | .ipT => .sliceK
  | .rawMessageT => .sliceK
  | .sliceT _ => .sliceK
  | .arrayT _ _ => .arrayK
  | .mapT _ _ => .mapK
  | .interfaceT => .interfaceK
  | .prim k => k.kind

/-- `t.Elem()` for the element-bearing types.  `net.IP` and `json.RawMessage`
are slices of bytes.  The catch-all arm is never consulted by the embedded
code (Go would panic there). -/
def GoType.elem : GoType → GoType
  | .ptr e => e
  | .sliceT e => e
  | .arrayT _ e => e
  | .mapT _ e => e
  | .ipT => .prim .uint8
  | .rawMessageT => .prim .uint8
  | t => t

/-- A struct field as the engine sees it: name, export information, and the
values of the three annotation tags plus the description tag.  The active
name tag's value (`f.Tag.Get(r.fieldNameTag())`) is carried directly as
`jsonTag`. -/
structure StructField where
  fname : String
  pkgPath : String := ""
  anonymous : Bool := false
  jsonTag : String := ""
  jsonschemaTag : String := ""
  jsonschemaExtrasTag : String := ""
  jsonschemaDescTag : String := ""
  typ : GoType
deriving DecidableEq, Repr

/-- The ambient Go type universe: declarations of named struct types. -/
abbrev Env := List (String × List StructField)

def envLookup (env : Env) (n : String) : Option (List StructField) :=
  (env.find? (fun p => p.1 = n)).map Prod.snd

/-- Field lists of struct-kinded types.  `time.Time` and `url.URL` expose only
unexported fields, which contribute nothing; they are modelled as empty. -/
def structFields (env : Env) : GoType → Option (List StructField)
  | .named n => envLookup env n
  | .timeT => some []
  | .uriT => some []
  | _ => none

/-! ## Schema nodes

`Schema` mirrors the Go `Schema` struct (schema.go) for every field the
embedded code reads or writes.  Go's `Type` field is called `typ` (the word
`Type` is a Lean universe).  Slice- and map-valued fields are lists; the
nil/empty-slice distinction of Go is not observable at the JSON level
(`omitempty`) and is not modelled.  `boolean` is the unexported field backing
`TrueSchema`/`FalseSchema`. -/

structure SchemaCore (S : Type) where
  version : String := ""
  id : String := ""
  anchor : String := ""
  ref : String := ""
  dynamicRef : String := ""
  comments : String := ""
  allOf : List S := []
  anyOf : List S := []
  oneOf : List S := []
  not : Option S := none
  ifS : Option S := none
  thenS : Option S := none
  elseS : Option S := none
  dependentSchemas : List (String × S) := []
  prefixItems : List S := []
  items : Option S := none
  containsS : Option S := none
  properties : List (String × S) := []
  patternProperties : List (String × S) := []
  additionalProperties : Option S := none
  propertyNames : Option S := none
  typ : String := ""
  enum : List JVal := []
  multipleOf : String := ""
  maximum : String := ""
  exclusiveMaximum : String := ""
  minimum : String := ""
  exclusiveMinimum : String := ""
  maxLength : Option Nat := none
  minLength : Option Nat := none
  pattern : String := ""
  maxItems : Option Nat := none
  minItems : Option Nat := none
  uniqueItems : Bool := false
  required : List String := []
  dependentRequired : List (String × List String) := []
  format : String := ""
  contentEncoding : String := ""
  contentMediaType : String := ""
  contentSchema : Option S := none
  title : String := ""
  description : String := ""
  defaultV : Option JVal := none
  deprecated : Bool := false
  readOnly : Bool := false
  writeOnly : Bool := false
  examples : List JVal := []
  extras : List (String × JVal) := []
  definitions : List (String × S) := []
  boolean : Option Bool := none

inductive Schema where
  | mk (core : SchemaCore Schema)

def Schema.core : Schema → SchemaCore Schema
  | .mk c => c

theorem Schema.mk_core (s : Schema) : Schema.mk s.core = s := by
  cases s; rfl


/-! ### Field setters

Go mutates individual `Schema` fields in place; the embedding uses one
definitionally-transparent setter per written field so that proof terms stay
small. -/

def Schema.setVersion (s : Schema) (v : String) : Schema := .mk { s.core with version := v }

def Schema.setId (s : Schema) (v : String) : Schema := .mk { s.core with id := v }

def Schema.setAnchor (s : Schema) (v : String) : Schema := .mk { s.core with anchor := v }

def Schema.setRef (s : Schema) (v : String) : Schema := .mk { s.core with ref := v }

def Schema.setTyp (s : Schema) (v : String) : Schema := .mk { s.core with typ := v }

def Schema.setTitle (s : Schema) (v : String) : Schema := .mk { s.core with title := v }

def Schema.setDescription (s : Schema) (v : String) : Schema := .mk { s.core with description := v }

def Schema.setFormat (s : Schema) (v : String) : Schema := .mk { s.core with format := v }

def Schema.setContentEncoding (s : Schema) (v : String) : Schema := .mk { s.core with contentEncoding := v }

def Schema.setPattern (s : Schema) (v : String) : Schema := .mk { s.core with pattern := v }

def Schema.setMinLength (s : Schema) (v : Option Nat) : Schema := .mk { s.core with minLength := v }

def Schema.setMaxLength (s : Schema) (v : Option Nat) : Schema := .mk { s.core with maxLength := v }

def Schema.setMinItems (s : Schema) (v : Option Nat) : Schema := .mk { s.core with minItems := v }

def Schema.setMaxItems (s : Schema) (v : Option Nat) : Schema := .mk { s.core with maxItems := v }

def Schema.setUniqueItems (s : Schema) (v : Bool) : Schema := .mk { s.core with uniqueItems := v }

def Schema.setReadOnly (s : Schema) (v : Bool) : Schema := .mk { s.core with readOnly := v }

def Schema.setWriteOnly (s : Schema) (v : Bool) : Schema := .mk { s.core with writeOnly := v }

def Schema.setDefaultV (s : Schema) (v : Option JVal) : Schema := .mk { s.core with defaultV := v }

def Schema.setExamples (s : Schema) (v : List JVal) : Schema := .mk { s.core with examples := v }

def Schema.setEnum (s : Schema) (v : List JVal) : Schema := .mk { s.core with enum := v }

def Schema.setMultipleOf (s : Schema) (v : String) : Schema := .mk { s.core with multipleOf := v }

def Schema.setMinimum (s : Schema) (v : String) : Schema := .mk { s.core with minimum := v }

def Schema.setMaximum (s : Schema) (v : String) : Schema := .mk { s.core with maximum := v }

def Schema.setExclusiveMaximum (s : Schema) (v : String) : Schema := .mk { s.core with exclusiveMaximum := v }

def Schema.setExclusiveMinimum (s : Schema) (v : String) : Schema := .mk { s.core with exclusiveMinimum := v }

def Schema.setItems (s : Schema) (v : Option Schema) : Schema := .mk { s.core with items := v }

def Schema.setOneOf (s : Schema) (v : List Schema) : Schema := .mk { s.core with oneOf := v }

def Schema.setAnyOf (s : Schema) (v : List Schema) : Schema := .mk { s.core with anyOf := v }

def Schema.setRequired (s : Schema) (v : List String) : Schema := .mk { s.core with required := v }

def Schema.setProperties (s : Schema) (v : List (String × Schema)) : Schema := .mk { s.core with properties := v }

def Schema.setPatternProperties (s : Schema) (v : List (String × Schema)) : Schema := .mk { s.core with patternProperties := v }

def Schema.setAdditionalProperties (s : Schema) (v : Option Schema) : Schema := .mk { s.core with additionalProperties := v }

def Schema.setExtras (s : Schema) (v : List (String × JVal)) : Schema := .mk { s.core with extras := v }

def Schema.setDefinitions (s : Schema) (v : List (String × Schema)) : Schema := .mk { s.core with definitions := v }

/-- The empty schema node (`new(Schema)`). -/
def emptySchema : Schema := .mk {}

/-- `FalseSchema` (schema.go): the boolean `false` schema literal. -/
def FalseSchema : Schema := .mk { boolean := some false }

/-- `TrueSchema` (schema.go): the boolean `true` schema literal. -/
def TrueSchema : Schema := .mk { boolean := some true }

/-! ## Definitions registry -/

/-- `Definitions` (schema.go): display name to schema node, modelled as an
association list with overwrite-on-insert (Go map assignment). -/
abbrev Defs := List (String × Schema)

def defsLookup (defs : Defs) (n : String) : Option Schema :=
  (defs.find? (fun p => p.1 = n)).map Prod.snd

/-- Go map assignment `definitions[name] = s`: overwrite in place or append. -/
def defsInsert (defs : Defs) (n : String) (s : Schema) : Defs :=
  match defs with
  | [] => [(n, s)]
  | (k, v) :: rest => if k = n then (n, s) :: rest else (k, v) :: defsInsert rest n s

/-! ## Ordered property container (properties.go)

`Properties` keeps insertion order; `Set` overwrites a value in place without
reordering, otherwise appends.  Modelled on the association list stored in
`SchemaCore.properties`. -/

def propertiesSet (props : List (String × Schema)) (key : String) (value : Schema) :
    List (String × Schema) :=
  match props with
  | [] => [(key, value)]
  | (k, v) :: rest =>
    if k = key then (key, value) :: rest else (k, v) :: propertiesSet rest key value

/-! ## Small string/number helpers from the Go standard library -/

/-- `strings.Split` with a one-character separator (the only form the engine
uses: `","` and `";"`).  The empty string yields one empty token. -/
def goSplitChars (sep : Char) : List Char → List Char → List String
  | [], buf => [String.mk buf]
  | c :: rest, buf =>
    if c = sep then String.mk buf :: goSplitChars sep rest []
    else goSplitChars sep rest (buf ++ [c])

def goSplit (s : String) (sep : Char) : List String :=
  goSplitChars sep s.data []

/-- `strings.Cut(s, "=")`: split at the first `=`; `none` when absent. -/
def cutOnEqual (s : String) : Option (String × String) :=
  go s.data
where
  go : List Char → Option (String × String)
    | [] => none
    | c :: rest =>
      if c = '=' then some ("", String.mk rest)
      else (go rest).map (fun p => (String.mk (c :: p.1.data), p.2))

def digitVal (c : Char) : Nat := c.toNat - 48

def digitsVal : List Char → Nat → Nat
  | [], acc => acc
  | c :: rest, acc => digitsVal rest (10 * acc + digitVal c)

/-- `strconv.ParseUint(s, 10, 64)`: unsigned decimal digits fitting 64 bits;
parse failure yields `none` (the Go caller maps the error to a nil pointer). -/
def parseUint (num : String) : Option Nat :=
  let l := num.data
  if l ≠ [] ∧ l.all Char.isDigit ∧ digitsVal l 0 < 2 ^ 64 then
    some (digitsVal l 0)
  else none

/-- `strconv.ParseInt(s, 10, 64)`: optional sign, decimal digits, 64-bit
signed range. -/
def parseIntGo (s : String) : Option Int :=
  let (sign, l) : Int × List Char :=
    match s.data with
    | '+' :: rest => (1, rest)
    | '-' :: rest => (-1, rest)
    | l => (1, l)
  if l ≠ [] ∧ l.all Char.isDigit ∧
      (if sign = 1 then digitsVal l 0 ≤ 2 ^ 63 - 1 else digitsVal l 0 ≤ 2 ^ 63) then
    some (sign * Int.ofNat (digitsVal l 0))
  else none

/-- `strconv.Atoi` as used by `setExtra`: the error is discarded, so a parse
failure leaves the zero value. -/
def atoiGo (s : String) : Int :=
  match parseIntGo s with
  | some i => i
  | none => 0

/-- `strconv.ParseBool` as used with a discarded error (`i, _ := ...`): the
recognised true spellings yield `true`; everything else (including parse
errors) leaves `false`. -/
def parseBoolGo (s : String) : Bool :=
  s == "1" || s == "t" || s == "T" || s == "TRUE" || s == "true" || s == "True"

/-- Decimal-form, float-parseability check.  Modelled from the spec and
`strconv.ParseFloat`'s decimal grammar (optional sign, mantissa with at most
one dot and at least one digit, optional exponent); hexadecimal floats,
`Inf`/`NaN` spellings, digit-separating underscores and range-overflow errors
are not modelled — no claim concerns numeric annotation parsing. -/
def goParseFloatOk (s : String) : Bool :=
  let l :=
    match s.data with
    | c :: rest => if c = '+' ∨ c = '-' then rest else c :: rest
    | [] => []
  let mant := l.takeWhile (fun c => c ≠ 'e' ∧ c ≠ 'E')
  let rest := l.dropWhile (fun c => c ≠ 'e' ∧ c ≠ 'E')
  let mantOk := mant.any Char.isDigit && mant.all (fun c => c.isDigit || c = '.') &&
    (mant.filter (· = '.')).length ≤ 1
  match rest with
  | [] => mantOk
  | _ :: expPart =>
    let expPart' :=
      match expPart with
      | c :: r => if c = '+' ∨ c = '-' then r else c :: r
      | [] => []
    mantOk && !expPart'.isEmpty && expPart'.all Char.isDigit

/-- `toJSONNumber` (reflect.go): a string is a valid number when it parses as
a 64-bit integer or as a float; failure yields the empty `json.Number`. -/
def toJSONNumber (s : String) : String × Bool :=
  if (parseIntGo s).isSome then (s, true)
  else if goParseFloatOk s then (s, true)
  else ("", false)

/-! ## Field tags (reflect.go lines 614-711, 1182-1305) -/

structure fieldTags where
  jsonTags : List String
  jsonschemaTags : List String
  jsonschemaExtra : List String
deriving DecidableEq, Repr

/-- `parseFieldTagsForField`: the active name tag is split on plain commas,
the `jsonschema` tag by the escaped-comma-aware splitter, and the
`jsonschema_extras` tag on plain commas.  (`f.Tag.Get(r.fieldNameTag())` is
carried directly in `StructField.jsonTag`.) -/
def parseFieldTagsForField (f : StructField) : fieldTags where
  jsonTags := goSplit f.jsonTag ','
  jsonschemaTags := splitOnUnescapedCommas f.jsonschemaTag
  jsonschemaExtra := goSplit f.jsonschemaExtrasTag ','

def appendUniqueString (base : List String) (value : String) : List String :=
  if value ∈ base then base else base ++ [value]

/-- `tags[0] == "-"` (the splitters guarantee a non-empty token list, so the
position-0 access is modelled with `headD`). -/
def ignoredByJSONTags (tags : List String) : Bool :=
  tags.headD "" == "-"

def ignoredByJSONSchemaTags (tags : List String) : Bool :=
  tags.headD "" == "-"

def inlinedByJSONTags (tags : List String) : Bool :=
  (tags.drop 1).contains "inline"

/-- `requiredFromJSONTags`: unless ignored, a field is required exactly when
no `omitempty`/`omitzero` marker follows the name token. -/
def requiredFromJSONTags (tags : List String) (val : Bool) : Bool :=
  if ignoredByJSONTags tags then val
  else if (tags.drop 1).any (fun tag => tag == "omitempty" || tag == "omitzero") then false
  else true

/-- `requiredFromJSONSchemaTags`: a `required` token forces requiredness. -/
def requiredFromJSONSchemaTags (tags : List String) (val : Bool) : Bool :=
  if ignoredByJSONSchemaTags tags then val
  else if tags.contains "required" then true
  else val

def nullableFromJSONSchemaTags (tags : List String) : Bool :=
  if ignoredByJSONSchemaTags tags then false
  else tags.contains "nullable"

/-! ## Reflector configuration

The hooks `Namer`, `AdditionalFields`, `LookupComment` and `CommentMap` keep
their Go defaults (nil) in this model: model types carry no methods and no
comment source, so `typeName` is `t.Name()` and `lookupComment` returns the
empty string.  `Lookup` returning the empty identifier models `EmptyID`. -/

structure Reflector where
  BaseSchemaID : String := ""
  Anonymous : Bool := false
  AssignAnchor : Bool := false
  AllowAdditionalProperties : Bool := false
  RequiredFromJSONSchemaTags : Bool := false
  DoNotReference : Bool := false
  ExpandedStruct : Bool := false
  FieldNameTag : String := ""
  IgnoredTypes : List GoType := []
  Lookup : Option (GoType → String) := none
  Mapper : Option (GoType → Option Schema) := none
  KeyNamer : Option (String → String) := none

def primName : PrimKind → String
  | .int => "int" | .int8 => "int8" | .int16 => "int16"
  | .int32 => "int32" | .int64 => "int64"
  | .uint => "uint" | .uint8 => "uint8" | .uint16 => "uint16"
  | .uint32 => "uint32" | .uint64 => "uint64"
  | .float32 => "float32" | .float64 => "float64"
  | .boolK => "bool" | .stringK => "string"
  | .uintptrT => "uintptr" | .complex64T => "complex64"
  | .complex128T => "complex128" | .chanT => "chan" | .funcT => "func"

/-- `typeName` with the default (nil) `Namer`: `t.Name()`.  Unnamed composite
types have the empty name. -/
def typeName (t : GoType) : String :=
  match t with
  | .named n => n
  | .timeT => "Time"
  | .uriT => "URL"
  | .ipT => "IP"
  | .rawMessageT => "RawMessage"
  | .prim k => primName k
  | _ => ""

/-- `lookupComment` with nil `LookupComment` and nil `CommentMap`. -/
def lookupComment (_t : GoType) (_name : String) : String := ""

/-- `reflectFieldName`: `(name, shouldEmbed, required, nullable)`. -/
def reflectFieldName (r : Reflector) (f : StructField) (tags : fieldTags) :
    String × Bool × Bool × Bool :=
  let jsonTags := tags.jsonTags
  if ignoredByJSONTags jsonTags then ("", false, false, false)
  else
  let schemaTags := tags.jsonschemaTags
  if ignoredByJSONSchemaTags schemaTags then ("", false, false, false)
  else
  let required0 :=
    if !r.RequiredFromJSONSchemaTags then requiredFromJSONTags jsonTags false else false
  let required := requiredFromJSONSchemaTags schemaTags required0
  let nullable := nullableFromJSONSchemaTags schemaTags
  if f.anonymous && jsonTags.headD "" == "" && f.typ.kind == .structK then
    ("", true, false, false)
  else if f.anonymous && jsonTags.headD "" == "" && f.typ.kind == .ptrK &&
      f.typ.elem.kind == .structK then
    ("", true, false, false)
  else if inlinedByJSONTags jsonTags then
    ("", true, false, false)
  else
  let name1 := if jsonTags.headD "" ≠ "" then jsonTags.headD "" else f.fname
  let name :=
    if !f.anonymous && f.pkgPath ≠ "" then ""
    else
      match r.KeyNamer with
      | some kn => kn name1
      | none => name1
  (name, false, required, nullable)

/-! ## Per-property keyword application (reflect.go lines 877-1180) -/

/-- Overwrite-or-append on the open extension map. -/
def extrasSet (l : List (String × JVal)) (k : String) (v : JVal) : List (String × JVal) :=
  match l with
  | [] => [(k, v)]
  | (k', v') :: rest => if k' = k then (k, v) :: rest else (k', v') :: extrasSet rest k v

def extrasLookup (l : List (String × JVal)) (k : String) : Option JVal :=
  (l.find? (fun p => p.1 = k)).map Prod.snd

/-- `setExtra`: a repeated key turns a scalar string into a list (or appends);
an existing int re-parses, an existing bool re-coerces; a fresh `minimum` key
is coerced via `Atoi`, other fresh keys become booleans for the literals
`true`/`false` and strings otherwise. -/
def setExtra (t : Schema) (key val : String) : Schema :=
  match extrasLookup t.core.extras key with
  | some existingVal =>
    match existingVal with
    | .str s1 => t.setExtras (extrasSet t.core.extras key (.arr [.str s1, .str val]))
    | .arr xs => t.setExtras (extrasSet t.core.extras key (.arr (xs ++ [.str val])))
    | .num _ => t.setExtras (extrasSet t.core.extras key (.num (toString (atoiGo val))))
    | .boolean _ => t.setExtras (extrasSet t.core.extras key (.boolean (val == "true" || val == "t")))
  | none =>
    if key = "minimum" then
      t.setExtras (extrasSet t.core.extras key (.num (toString (atoiGo val))))
    else if val = "true" then
      t.setExtras (extrasSet t.core.extras key (.boolean true))
    else if val = "false" then
      t.setExtras (extrasSet t.core.extras key (.boolean false))
    else
      t.setExtras (extrasSet t.core.extras key (.str val))

def extraKeywords (t : Schema) (tags : List String) : Schema :=
  tags.foldl
    (fun t tag =>
      match cutOnEqual tag with
      | some (key, val) => setExtra t key val
      | none => t)
    t

/-- Update the last element whose title matches, appending the property name
to its required list; absent a match, append a fresh alternative (Go keeps a
pointer to the last title match and mutates it in place). -/
def graftGroup : List Schema → String → String → List Schema
  | [], val, name => [(emptySchema.setTitle val).setRequired [name]]
  | s :: rest, val, name =>
    if rest.any (fun s2 => s2.core.title == val) then
      s :: graftGroup rest val name
    else if s.core.title == val then
      (s.setRequired (s.core.required ++ [name])) :: rest
    else
      s :: graftGroup rest val name

/-- Apply an update to `t.Items` when present, else to `t` itself (the
`subSchema` selection of `oneof_ref`/`anyof_ref`). -/
def applyToSub (t : Schema) (f : Schema → Schema) : Schema :=
  match t.core.items with
  | some i => t.setItems (some (f i))
  | none => f t

/-- `genericKeywords`: walks the tag list in order, returning
`(unprocessed, t, parent)`; unrecognised tags are collected in order for the
kind-specific parsers. -/
def genericKeywords (t : Schema) (tags : List String) (parent : Schema)
    (propertyName : String) : List String × Schema × Schema :=
  match tags with
  | [] => ([], t, parent)
  | tag :: rest =>
    match cutOnEqual tag with
    | none => genericKeywords t rest parent propertyName
    | some (name, val) =>
      if name = "title" then
        genericKeywords (t.setTitle val) rest parent propertyName
      else if name = "description" then
        genericKeywords (t.setDescription val) rest parent propertyName
      else if name = "type" then
        genericKeywords (t.setTyp val) rest parent propertyName
      else if name = "anchor" then
        genericKeywords (t.setAnchor val) rest parent propertyName
      else if name = "oneof_required" then
        genericKeywords t rest
          (parent.setOneOf (graftGroup parent.core.oneOf val propertyName))
          propertyName
      else if name = "anyof_required" then
        genericKeywords t rest
          (parent.setAnyOf (graftGroup parent.core.anyOf val propertyName))
          propertyName
      else if name = "oneof_ref" then
        genericKeywords
          (applyToSub t (fun sub => (sub.setRef "").setOneOf
            (sub.core.oneOf ++ (goSplit val (Char.ofNat 59)).map (fun rf => emptySchema.setRef rf))))
          rest parent propertyName
      else if name = "oneof_type" then
        genericKeywords
          ((t.setTyp "").setOneOf
            (t.core.oneOf ++ (goSplit val (Char.ofNat 59)).map (fun ty => emptySchema.setTyp ty)))
          rest parent propertyName
      else if name = "anyof_ref" then
        genericKeywords
          (applyToSub t (fun sub => (sub.setRef "").setAnyOf
            (sub.core.anyOf ++ (goSplit val (Char.ofNat 59)).map (fun rf => emptySchema.setRef rf))))
          rest parent propertyName
      else if name = "anyof_type" then
        genericKeywords
          ((t.setTyp "").setAnyOf
            (t.core.anyOf ++ (goSplit val (Char.ofNat 59)).map (fun ty => emptySchema.setTyp ty)))
          rest parent propertyName
      else
        match genericKeywords t rest parent propertyName with
        | (unp, outT, outParent) => (tag :: unp, outT, outParent)

def booleanKeywords (t : Schema) (tags : List String) : Schema :=
  tags.foldl
    (fun t tag =>
      match cutOnEqual tag with
      | none => t
      | some (name, val) =>
        if name = "default" then
          if val = "true" then t.setDefaultV (some (.boolean true))
          else if val = "false" then t.setDefaultV (some (.boolean false))
          else t
        else t)
    t

def stringKeywords (t : Schema) (tags : List String) : Schema :=
  tags.foldl
    (fun t tag =>
      match cutOnEqual tag with
      | none => t
      | some (name, val) =>
        if name = "minLength" then t.setMinLength (parseUint val)
        else if name = "maxLength" then t.setMaxLength (parseUint val)
        else if name = "pattern" then t.setPattern val
        else if name = "format" then t.setFormat val
        else if name = "readOnly" then t.setReadOnly (parseBoolGo val)
        else if name = "writeOnly" then t.setWriteOnly (parseBoolGo val)
        else if name = "default" then t.setDefaultV (some (.str val))
        else if name = "example" then t.setExamples (t.core.examples ++ [.str val])
        else if name = "enum" then t.setEnum (t.core.enum ++ [.str val])
        else t)
    t

def numericalKeywords (t : Schema) (tags : List String) : Schema :=
  tags.foldl
    (fun t tag =>
      match cutOnEqual tag with
      | none => t
      | some (name, val) =>
        if name = "multipleOf" then t.setMultipleOf (toJSONNumber val).1
        else if name = "minimum" then t.setMinimum (toJSONNumber val).1
        else if name = "maximum" then t.setMaximum (toJSONNumber val).1
        else if name = "exclusiveMaximum" then t.setExclusiveMaximum (toJSONNumber val).1
        else if name = "exclusiveMinimum" then t.setExclusiveMinimum (toJSONNumber val).1
        else if name = "default" then
          (if (toJSONNumber val).2 then t.setDefaultV (some (.num (toJSONNumber val).1)) else t)
        else if name = "example" then
          (if (toJSONNumber val).2 then t.setExamples (t.core.examples ++ [.num (toJSONNumber val).1]) else t)
        else if name = "enum" then
          (if (toJSONNumber val).2 then t.setEnum (t.core.enum ++ [.num (toJSONNumber val).1]) else t)
        else t)
    t

/-- Update `t.Items` if present; Go would dereference a nil `Items` pointer
here, which is unreachable for the tag sets the engine itself produces. -/
def updateItems (t : Schema) (f : Schema → Schema) : Schema :=
  match t.core.items with
  | some i => t.setItems (some (f i))
  | none => t

def arrayKeywords (t : Schema) (tags : List String) : Schema :=
  let step := fun (acc : Schema × List JVal × List String) tag =>
    let (t, defaultValues, unprocessed) := acc
    match cutOnEqual tag with
    | none => (t, defaultValues, unprocessed)
    | some (name, val) =>
      if name = "minItems" then (t.setMinItems (parseUint val), defaultValues, unprocessed)
      else if name = "maxItems" then (t.setMaxItems (parseUint val), defaultValues, unprocessed)
      else if name = "uniqueItems" then (t.setUniqueItems true, defaultValues, unprocessed)
      else if name = "default" then (t, defaultValues ++ [.str val], unprocessed)
      else if name = "format" then (updateItems t (fun i => i.setFormat val), defaultValues, unprocessed)
      else if name = "pattern" then (updateItems t (fun i => i.setPattern val), defaultValues, unprocessed)
      else (t, defaultValues, unprocessed ++ [tag])
  let (t1, defaultValues, unprocessed) := tags.foldl step (t, [], [])
  let t2 :=
    if defaultValues.length > 0 then t1.setDefaultV (some (.arr defaultValues))
    else t1
  if unprocessed.isEmpty then t2
  else
    match t2.core.items with
    | none => t2
    | some i =>
      if i.core.typ = "string" then t2.setItems (some (stringKeywords i unprocessed))
      else if i.core.typ = "number" then t2.setItems (some (numericalKeywords i unprocessed))
      else if i.core.typ = "integer" then t2.setItems (some (numericalKeywords i unprocessed))
      else t2

/-- `structKeywordsFromTags`: returns the updated `(property, parent)` pair. -/
def structKeywordsFromTags (t : Schema) (f : StructField) (parent : Schema)
    (propertyName : String) (tags : fieldTags) : Schema × Schema :=
  let t := t.setDescription f.jsonschemaDescTag
  let (_, t, parent) :=
    let (unprocessed, t1, parent1) := genericKeywords t tags.jsonschemaTags parent propertyName
    let t2 :=
      if t1.core.typ = "string" then stringKeywords t1 unprocessed
      else if t1.core.typ = "number" then numericalKeywords t1 unprocessed
      else if t1.core.typ = "integer" then numericalKeywords t1 unprocessed
      else if t1.core.typ = "array" then arrayKeywords t1 unprocessed
      else if t1.core.typ = "boolean" then booleanKeywords t1 unprocessed
      else t1
    (unprocessed, t2, parent1)
  (extraKeywords t tags.jsonschemaExtra, parent)

/-! ## The type walker (reflect.go lines 280-612)

The Go walker is a set of mutually recursive procedures that mutate a shared
`Definitions` map through pointers.  The embedding passes the registry
explicitly and threads a fuel parameter: every mutual call consumes one unit,
and exhaustion is the distinguished result `outOfFuel`, so that termination of
the Go code at an input is exactly the existence of a sufficient fuel.
`panic` is the result `fatal`.  The capability hooks probed via interfaces
(`JSONSchema`, `JSONSchemaExtend`, `JSONSchemaAlias`, `JSONSchemaProperty`,
`GetFieldDocString`, proto enums) are never implemented by model types, so
their probe branches are statically inert; the `Mapper` and `Lookup` function
hooks are modelled.  Since the Go registry holds pointers that keep being
mutated until the pass ends, the model re-inserts the final node value once a
kind handler finishes (`addDefinition` write-back); the two coincide whenever
no two distinct types share a display name, which the spec documents as the
supported regime. -/

inductive WalkRes where
  | ok (s : Schema) (defs : Defs)
  | fatal (msg : String)
  | outOfFuel

def WalkRes.isOutOfFuel : WalkRes → Bool
  | .outOfFuel => true
  | _ => false

/-- `lookupID`: consult the `Lookup` hook after dereferencing one pointer
level; the empty string is `EmptyID`. -/
def lookupID (r : Reflector) (t : GoType) : String :=
  match r.Lookup with
  | some lk =>
    lk (match t with
        | .ptr e => e
        | t => t)
  | none => ""

/-- `addDefinition`: register under the display name; the empty name is
unregistrable. -/
def addDefinition (defs : Defs) (t : GoType) (s : Schema) : Defs :=
  let name := typeName t
  if name = "" then defs else defsInsert defs name s

/-- `refDefinition`: produce a `$ref` to an existing definition; disabled
entirely by `DoNotReference`. -/
def refDefinition (r : Reflector) (defs : Defs) (t : GoType) : Option Schema :=
  if r.DoNotReference then none
  else
    let name := typeName t
    if name = "" then none
    else
      match defsLookup defs name with
      | none => none
      | some _ => some (emptySchema.setRef ("#/$defs/" ++ name))

/-- `reflectSchemaExtend`: no model type implements `JSONSchemaExtend`, so
the extension body and the re-registration check never fire. -/
def reflectSchemaExtend (_r : Reflector) (_defs : Defs) (_t : GoType) (s : Schema) : Schema :=
  s

/-- The tail of `handleField` for a named (non-embedded) field: apply the
annotation keywords, wrap nullable properties in a oneOf with the null node,
insert into the ordered property map, and record requiredness with set
semantics.  Returns the updated parent node. -/
def insertFieldProperty (property : Schema) (f : StructField) (st : Schema)
    (name : String) (tags : fieldTags) (required nullable : Bool) : Schema :=
  match structKeywordsFromTags property f st name tags with
  | (property1, st1) =>
    let property2 :=
      if nullable then emptySchema.setOneOf [property1, emptySchema.setTyp "null"]
      else property1
    let st2 := st1.setProperties (propertiesSet st1.core.properties name property2)
    if required then st2.setRequired (appendUniqueString st2.core.required name)
    else st2

/-- The common tail of `reflectTypeToSchema` after the kind switch: run the
extend capability, then always re-consult the registry, substituting a `$ref`
when the definition exists. -/
def finishReflect (r : Reflector) (t : GoType) : WalkRes → WalkRes
  | .ok st defs1 =>
    let st := reflectSchemaExtend r defs1 t st
    match refDefinition r defs1 t with
    | some d => .ok d defs1
    | none => .ok st defs1
  | other => other

mutual

/-- `refOrReflectTypeToSchema`: external-ID lookup, then registry, then full
reflection. -/
def refOrReflectTypeToSchema (r : Reflector) (env : Env) (fuel : Nat)
    (defs : Defs) (t : GoType) : WalkRes :=
  match fuel with
  | 0 => .outOfFuel
  | fuel + 1 =>
    let id := lookupID r t
    if id ≠ "" then .ok (emptySchema.setRef id) defs
    else
      match refDefinition r defs t with
      | some d => .ok d defs
      | none => reflectTypeToSchemaWithID r env fuel defs t

/-- `reflectTypeToSchemaWithID`: reflect, then stamp the `Lookup` identifier
onto the node when the hook supplies one. -/
def reflectTypeToSchemaWithID (r : Reflector) (env : Env) (fuel : Nat)
    (defs : Defs) (t : GoType) : WalkRes :=
  match fuel with
  | 0 => .outOfFuel
  | fuel + 1 =>
    match reflectTypeToSchema r env fuel defs t with
    | .ok s defs' =>
      let s :=
        match r.Lookup with
        | some lk => if lk t ≠ "" then s.setId (lk t) else s
        | none => s
      .ok s defs'
    | other => other

/-- `reflectTypeToSchema`: pointer dereference, hook consultation, the
well-known `net.IP` leaf, then dispatch on the structural kind (the arms
below follow `t.Kind()`; in the model the constructor determines the kind).
Kinds missing from the Go switch hit `default: panic`. -/
def reflectTypeToSchema (r : Reflector) (env : Env) (fuel : Nat)
    (defs : Defs) (t : GoType) : WalkRes :=
  match fuel with
  | 0 => .outOfFuel
  | fuel + 1 =>
    match t with
    | .ptr e => refOrReflectTypeToSchema r env fuel defs e
    | _ =>
      -- JSONSchemaAlias: no model type implements it
      let mapped :=
        match r.Mapper with
        | some mp => mp t
        | none => none
      match mapped with
      | some s => .ok s defs
      | none =>
        -- reflectCustomSchema: no model type implements JSONSchema
        -- protoEnumType: no model type implements EnumDescriptor
        if t = .ipT then .ok ((emptySchema.setTyp "string").setFormat "ipv4") defs
        else
          match t with
          | .named _ | .timeT | .uriT =>
            finishReflect r t (reflectStruct r env fuel defs t emptySchema)
          | .ipT | .rawMessageT | .sliceT _ | .arrayT _ _ =>
            finishReflect r t (reflectSliceOrArray r env fuel defs t emptySchema)
          | .mapT _ _ =>
            finishReflect r t (reflectMap r env fuel defs t emptySchema)
          | .interfaceT =>
            finishReflect r t (.ok emptySchema defs)
          | .prim k =>
            match k with
            | .int | .int8 | .int16 | .int32 | .int64
            | .uint | .uint8 | .uint16 | .uint32 | .uint64 =>
              finishReflect r t (.ok (emptySchema.setTyp "integer") defs)
            | .float32 | .float64 =>
              finishReflect r t (.ok (emptySchema.setTyp "number") defs)
            | .boolK =>
              finishReflect r t (.ok (emptySchema.setTyp "boolean") defs)
            | .stringK =>
              finishReflect r t (.ok (emptySchema.setTyp "string") defs)
            | .uintptrT | .complex64T | .complex128T | .chanT | .funcT =>
              .fatal ("unsupported type " ++ primName k)
          | .ptr _ => .fatal "unreachable: pointer handled above"

/-- `reflectStruct`: special calendar/URI leaves, then register-before-fields
and per-field processing. -/
def reflectStruct (r : Reflector) (env : Env) (fuel : Nat)
    (defs : Defs) (t : GoType) (s : Schema) : WalkRes :=
  match fuel with
  | 0 => .outOfFuel
  | fuel + 1 =>
    match t with
    | .timeT => .ok ((s.setTyp "string").setFormat "date-time") defs
    | .uriT => .ok ((s.setTyp "string").setFormat "uri") defs
    | _ =>
      match structFields env t with
      | none => .fatal ("unknown struct type " ++ typeName t)
      | some _fields =>
        let defs1 := addDefinition defs t s
        let s1 := ((((s.setTyp "object").setProperties []).setDescription
            (lookupComment t "")).setAnchor
            (if r.AssignAnchor then typeName t else s.core.anchor)).setAdditionalProperties
            (match s.core.additionalProperties with
             | none => if !r.AllowAdditionalProperties then some FalseSchema else none
             | some ap => some ap)
        let ignored := r.IgnoredTypes.contains t
        if ignored then .ok s1 (addDefinition defs1 t s1)
        else
          match reflectStructFields r env fuel defs1 t s1 with
          | .ok s2 defs2 => .ok s2 (addDefinition defs2 t s2)
          | other => other

/-- `reflectStructFields`: dereference a pointer, bail out on non-structs,
then walk the declared fields (the `AdditionalFields` hook keeps its nil
default). -/
def reflectStructFields (r : Reflector) (env : Env) (fuel : Nat)
    (defs : Defs) (t0 : GoType) (st : Schema) : WalkRes :=
  match fuel with
  | 0 => .outOfFuel
  | fuel + 1 =>
    let t :=
      match t0 with
      | .ptr e => e
      | t0 => t0
    if t.kind = .structK then
      match structFields env t with
      | none => .fatal ("unknown struct type " ++ typeName t)
      | some fields => walkFields r env fuel defs st fields
    else .ok st defs

/-- The per-field loop body of `reflectStructFields` (`handleField`): embed
anonymous/inlined fields, otherwise resolve the field type, apply annotation
keywords, wrap nullable properties, insert into the ordered property map and
record requiredness with set semantics. -/
def walkFields (r : Reflector) (env : Env) (fuel : Nat)
    (defs : Defs) (st : Schema) (fields : List StructField) : WalkRes :=
  match fuel with
  | 0 => .outOfFuel
  | fuel + 1 =>
    match fields with
    | [] => .ok st defs
    | f :: rest =>
      let tags := parseFieldTagsForField f
      let (name, shouldEmbed, required, nullable) := reflectFieldName r f tags
      if name = "" then
        if shouldEmbed then
          match reflectStructFields r env fuel defs f.typ st with
          | .ok st' defs' => walkFields r env fuel defs' st' rest
          | other => other
        else walkFields r env fuel defs st rest
      else
        -- JSONSchemaProperty: no model type implements it, so the field's own
        -- type is resolved
        match refOrReflectTypeToSchema r env fuel defs f.typ with
        | .ok property defs' =>
          -- description fallbacks (lookupComment, GetFieldDocString) are
          -- empty in the model and leave the description unchanged
          walkFields r env fuel defs'
            (insertFieldProperty property f st name tags required nullable) rest
        | other => other

/-- `reflectSliceOrArray`: raw-message early exit, byte-slice base64 rule,
fixed-array item bounds, generic array items. -/
def reflectSliceOrArray (r : Reflector) (env : Env) (fuel : Nat)
    (defs : Defs) (t : GoType) (st : Schema) : WalkRes :=
  match fuel with
  | 0 => .outOfFuel
  | fuel + 1 =>
    if t = .rawMessageT then .ok st defs
    else
      let defs1 := addDefinition defs t st
      let st1 :=
        if st.core.description = "" then st.setDescription (lookupComment t "")
        else st
      let st2 :=
        match t with
        | .arrayT n _ => (st1.setMinItems (some n)).setMaxItems (some n)
        | _ => st1
      if t.kind = .sliceK ∧ t.elem = .prim .uint8 then
        let stB := (st2.setTyp "string").setContentEncoding "base64"
        .ok stB (addDefinition defs1 t stB)
      else
        match refOrReflectTypeToSchema r env fuel defs1 t.elem with
        | .ok items defs2 =>
          let stA := (st2.setTyp "array").setItems (some items)
          .ok stA (addDefinition defs2 t stA)
        | other => other

/-- `reflectMap`: signed-integer-keyed maps get digit-pattern properties with
closed additional properties; other maps get `additionalProperties` resolved
from the value type unless that type is interface-kinded. -/
def reflectMap (r : Reflector) (env : Env) (fuel : Nat)
    (defs : Defs) (t : GoType) (st : Schema) : WalkRes :=
  match fuel with
  | 0 => .outOfFuel
  | fuel + 1 =>
    match t with
    | .mapT key elem =>
      let defs1 := addDefinition defs t st
      let st1 := st.setTyp "object"
      let st2 :=
        if st1.core.description = "" then st1.setDescription (lookupComment t "")
        else st1
      if key.kind = .intK ∨ key.kind = .int8K ∨ key.kind = .int16K ∨
          key.kind = .int32K ∨ key.kind = .int64K then
        match refOrReflectTypeToSchema r env fuel defs1 elem with
        | .ok v defs2 =>
          let stA := (st2.setPatternProperties
            [("^[0-9]+$", v)]).setAdditionalProperties (some FalseSchema)
          .ok stA (addDefinition defs2 t stA)
        | other => other
      else
        if elem.kind = .interfaceK then .ok st2 (addDefinition defs1 t st2)
        else
          match refOrReflectTypeToSchema r env fuel defs1 elem with
          | .ok v defs2 =>
            let stA := st2.setAdditionalProperties (some v)
            .ok stA (addDefinition defs2 t stA)
          | other => other
    | _ => .fatal "not a map"

end

/-- The schema version string (schema.go). -/
def VersionString : String := "https://json-schema.org/draft/2020-12/schema"

/-- Go map `delete(definitions, name)`. -/
def defsRemove (defs : Defs) (n : String) : Defs :=
  defs.filter (fun p => p.1 ≠ n)

/-- `ReflectFromType` for the cache-disabled path (the memoization layer is
modelled separately): dereference the root pointer, reflect against a fresh
registry, optionally expand the root definition, stamp the version and attach
the definitions unless referencing is disabled.  The `$id` assignment from
`BaseSchemaID` or the package path delegates to the external ID utilities
(utils.go) and is not modelled. -/
def ReflectFromType (r : Reflector) (env : Env) (fuel : Nat) (t0 : GoType) : WalkRes :=
  let t :=
    match t0 with
    | .ptr e => e
    | t0 => t0
  let name := typeName t
  match reflectTypeToSchemaWithID r env fuel [] t with
  | .ok bs definitions =>
    if r.ExpandedStruct then
      match defsLookup definitions name with
      | none => .fatal "nil dereference: expanded root has no definition"
      | some d =>
        let definitions := defsRemove definitions name
        let s := d.setVersion VersionString
        let s :=
          if !r.DoNotReference then s.setDefinitions definitions
          else s
        .ok s definitions
    else
      let s := bs.setVersion VersionString
      let s :=
        if !r.DoNotReference then s.setDefinitions definitions
        else s
      .ok s definitions
  | other => other

/-! ## Case-arm classifiers and concrete example inputs used by the claims -/

/-- The kinds of the `Int ... Uint64` case arm of `reflectTypeToSchema`. -/
def isIntegerCase : PrimKind → Bool
  | .int | .int8 | .int16 | .int32 | .int64
  | .uint | .uint8 | .uint16 | .uint32 | .uint64 => true
  | _ => false

/-- The kinds of the `Float32, Float64` case arm. -/
def isFloatCase : PrimKind → Bool
  | .float32 | .float64 => true
  | _ => false

/-- The kinds that fall through to `default: panic`. -/
def isUnsupportedCase : PrimKind → Bool
  | .uintptrT | .complex64T | .complex128T | .chanT | .funcT => true
  | _ => false

/-- A Reflector with every option at its zero value (`&Reflector{}`). -/
def defaultReflector : Reflector := {}

/-- The declaration `type B struct` with one field `C` of kind func and json
tag "c": a struct with an unreflectable field kind. -/
def envUnsupportedField : Env :=
  [("B", [{ fname := "C", jsonTag := "c", typ := .prim .funcT }])]

/-- The canonical self-referential struct: `type A struct` with field `Next`
of type pointer-to-A and json tag "next". -/
def envSelfRef : Env :=
  [("A", [{ fname := "Next", jsonTag := "next", typ := .ptr (.named "A") }])]

/-- An anonymous embedded pointer to the struct itself, legal in Go:
the declaration is `type A2 struct` containing just the embedded field `*A2`. -/
def envEmbedSelf : Env :=
  [("A2", [{ fname := "A2", anonymous := true, typ := .ptr (.named "A2") }])]

/-! ## Configuration fingerprint (`cacheFingerprint`, reflect.go lines 827-875)

The Go method hashes, with FNV-1a over 64 bits: one byte per boolean toggle,
the raw `FieldNameTag` and `BaseSchemaID` strings, the decimal spelling of
each non-nil hook's code/closure address, and for a non-nil `CommentMap` its
length then its address.  Function values cannot be inspected in Lean, so the
fingerprint operates on `FingerprintConfig`, the identity data the method
actually consumes: `none` models a nil hook, `some p` a hook whose
`reflect.ValueOf(...).Pointer()` is `p`.  Strings are taken as ASCII (their
UTF-8 bytes coincide with the character codes the model uses). -/

def fnvOffset : Nat := 14695981039346656037

def fnvPrime : Nat := 1099511628211

/-- One FNV-1a step on 64 bits: XOR in the byte, multiply by the prime. -/
def fnvStep (h b : Nat) : Nat := ((h ^^^ b) * fnvPrime) % 2 ^ 64

def fnv64a (bytes : List Nat) : Nat := bytes.foldl fnvStep fnvOffset

def strBytes (s : String) : List Nat := s.data.map Char.toNat

/-- Decimal digits of a natural number, most significant first (the spelling
`strconv.FormatUint(n, 10)` writes). -/
def natDecAux : Nat → Nat → List Nat
  | 0, _ => []
  | fuel + 1, n => if n < 10 then [n] else natDecAux fuel (n / 10) ++ [n % 10]

def decimalBytes (n : Nat) : List Nat := (natDecAux (n + 1) n).map (fun d => d + 48)

/-- `writeBool`: a single 0/1 byte. -/
def boolByte (b : Bool) : List Nat := [if b then 1 else 0]

def optPtrBytes : Option Nat → List Nat
  | some p => decimalBytes p
  | none => []

/-- The identity data `cacheFingerprint` consumes from the Reflector. -/
structure FingerprintConfig where
  Anonymous : Bool := false
  AssignAnchor : Bool := false
  AllowAdditionalProperties : Bool := false
  RequiredFromJSONSchemaTags : Bool := false
  DoNotReference : Bool := false
  ExpandedStruct : Bool := false
  FieldNameTag : String := ""
  BaseSchemaID : String := ""
  LookupPtr : Option Nat := none
  MapperPtr : Option Nat := none
  NamerPtr : Option Nat := none
  KeyNamerPtr : Option Nat := none
  AdditionalFieldsPtr : Option Nat := none
  LookupCommentPtr : Option Nat := none
  CommentMapLenPtr : Option (Nat × Nat) := none
deriving DecidableEq

/-- The bytes written after the six boolean toggles. -/
def fingerprintTail (c : FingerprintConfig) : List Nat :=
  strBytes c.FieldNameTag ++ strBytes c.BaseSchemaID ++
  optPtrBytes c.LookupPtr ++ optPtrBytes c.MapperPtr ++ optPtrBytes c.NamerPtr ++
  optPtrBytes c.KeyNamerPtr ++ optPtrBytes c.AdditionalFieldsPtr ++
  optPtrBytes c.LookupCommentPtr ++
  (match c.CommentMapLenPtr with
   | some (len, ptr) => decimalBytes len ++ decimalBytes ptr
   | none => [])

/-- The full byte stream hashed by `cacheFingerprint`, in write order. -/
def fingerprintBytes (c : FingerprintConfig) : List Nat :=
  boolByte c.Anonymous ++ boolByte c.AssignAnchor ++
  boolByte c.AllowAdditionalProperties ++ boolByte c.RequiredFromJSONSchemaTags ++
  boolByte c.DoNotReference ++ boolByte c.ExpandedStruct ++ fingerprintTail c

def cacheFingerprint (c : FingerprintConfig) : Nat := fnv64a (fingerprintBytes c)

/-- A configuration whose only non-nil hook is `Lookup`, at address 1. -/
def fpLookupOnly : FingerprintConfig := { LookupPtr := some 1 }

/-- A configuration whose only non-nil hook is `Mapper`, at address 1. -/
def fpMapperOnly : FingerprintConfig := { MapperPtr := some 1 }

/-- A configuration with name tag "ab". -/
def fpTagAB : FingerprintConfig := { FieldNameTag := "ab" }

/-- A configuration with name tag "a" and base ID "b". -/
def fpTagA_BaseB : FingerprintConfig := { FieldNameTag := "a", BaseSchemaID := "b" }

/-- A field carrying both the omit-if-empty marker and the jsonschema
required token. -/
def fieldOmitEmptyRequired : StructField :=
  { fname := "F", jsonTag := "f,omitempty", jsonschemaTag := "required", typ := .prim .stringK }

/-- A field with only the omit-if-empty marker. -/
def fieldOmitOnly : StructField :=
  { fname := "F", jsonTag := "f,omitempty", typ := .prim .stringK }

/-- A plain exported field with a json name and no markers. -/
def fieldPlain : StructField :=
  { fname := "F", jsonTag := "f", typ := .prim .stringK }

/-- Termination of the walker at an input, phrased on the fuel embedding:
some fuel avoids exhaustion. -/
def WalkTerminates (r : Reflector) (env : Env) (defs : Defs) (t : GoType) : Prop :=
  ∃ fuel, (reflectTypeToSchemaWithID r env fuel defs t).isOutOfFuel = false

/-! ### Schema cache (reflect.go 750-815)

`schemaCacheKey` pairs the reflect.Type with the configuration fingerprint;
the cache itself is a key-value map (`xsync.MapOf`) plus the recency list
`schemaCacheOrder`, whose front is least recently used.  The map is modeled
as an association list holding at most one binding per key (`Store` is only
reached when `Load` missed).  `MaxSchemaCacheEntries` is a Go `int`; the
claim and this model concern the `== 0` and `> 0` branches, so `Nat`
suffices.  The deep-cloning the Go store/load perform on the cached schema
is studied with `cloneSchema`; it does not touch the key or order
bookkeeping modeled here. -/

structure SchemaCacheKey where
  t : GoType
  fingerprint : Nat
deriving DecidableEq

structure SchemaCacheState where
  entries : List (SchemaCacheKey × Schema)
  order : List SchemaCacheKey

/-- `cache.Load`: first binding of the key, if any. -/
def cacheLoad (m : List (SchemaCacheKey × Schema)) (k : SchemaCacheKey) : Option Schema :=
  match m with
  | [] => none
  | (k1, v) :: rest => if k1 = k then some v else cacheLoad rest k

/-- `cache.Delete`: drop the binding of the key. -/
def cacheDelete (m : List (SchemaCacheKey × Schema)) (k : SchemaCacheKey) :
    List (SchemaCacheKey × Schema) :=
  match m with
  | [] => []
  | (k1, v) :: rest => if k1 = k then rest else (k1, v) :: cacheDelete rest k

/-- `evictIfNeeded`: while a positive bound is exceeded, pop the front of
the order list and delete that key from the map.  Each iteration shortens
the order list by one, so the Go loop is structural recursion on it. -/
def evictIfNeeded (max : Nat) :
    List SchemaCacheKey → List (SchemaCacheKey × Schema) →
    List SchemaCacheKey × List (SchemaCacheKey × Schema)
  | [], m => ([], m)
  | k :: rest, m =>
    if 0 < max ∧ max < rest.length + 1 then evictIfNeeded max rest (cacheDelete m k)
    else (k :: rest, m)

/-- The order-list update of `promoteCacheKey`: move the first occurrence
of the key to the end, leave the list unchanged if the key is absent. -/
def promoteOrder (key : SchemaCacheKey) : List SchemaCacheKey → List SchemaCacheKey
  | [] => []
  | k :: rest => if k = key then rest ++ [key] else k :: promoteOrder key rest

def promoteCacheKey (max : Nat) (st : SchemaCacheState) (key : SchemaCacheKey) :
    SchemaCacheState :=
  if max = 0 then st else { st with order := promoteOrder key st.order }

/-- `storeSchemaInCache` with the cache present: no-op when the key is
already bound (first writer wins); otherwise store, and under a positive
bound append the key to the recency order and evict. -/
def storeSchemaInCache (max : Nat) (st : SchemaCacheState) (key : SchemaCacheKey)
    (s : Schema) : SchemaCacheState :=
  if (cacheLoad st.entries key).isSome then st
  else
    let entries1 := st.entries ++ [(key, s)]
    if 0 < max then
      let res := evictIfNeeded max (st.order ++ [key]) entries1
      { entries := res.2, order := res.1 }
    else { entries := entries1, order := st.order }

/-- `loadSchemaFromCache` with the cache present: on a hit promote the key
and return the value, on a miss return the state unchanged. -/
def loadSchemaFromCache (max : Nat) (st : SchemaCacheState) (key : SchemaCacheKey) :
    Option Schema × SchemaCacheState :=
  match cacheLoad st.entries key with
  | some s => (some s, promoteCacheKey max st key)
  | none => (none, st)

/-- A one-entry cache state holding `cacheKeyA`. -/
def cacheKeyA : SchemaCacheKey := ⟨.interfaceT, 0⟩

def cacheKeyB : SchemaCacheKey := ⟨.prim .stringK, 0⟩

def cacheStateOne : SchemaCacheState := ⟨[(cacheKeyA, emptySchema)], [cacheKeyA]⟩

/-! ### cloneSchema (reflect.go 1404-1502) as a store semantics

`cloneSchema` copies the struct value (`ns := *s`), then replaces every
schema-valued field with a recursive clone: the single child pointers
(`Not`, `If`, `Then`, `Else`, `Items`, `Contains`, `AdditionalProperties`,
`PropertyNames`, `ContentSchema`), the schema slices (`AllOf`, `AnyOf`,
`OneOf`, `PrefixItems`), and the schema maps / ordered container
(`DependentSchemas`, `PatternProperties`, `Definitions`, `Properties`); it
rebuilds `Required` (and each `DependentRequired` value) with
`copyStringSlice`, and copies `Enum`, `Examples` and `Extras` shallowly
(`copy` / `maps.Copy` duplicate the container but keep the stored `any`
values, which for `Extras` can be `[]string` headers sharing their backing
array, reflect.go 1156-1158).

The embedding makes pointer identity explicit: a `CloneStore` is a heap of
schema nodes (`nodes`, addressed by position) and a heap of mutable string
arrays (`slices`, the `[]string` backing arrays).  An `HNode` keeps all
value-copied scalar fields bundled in `scalars`; `children` lists every
schema-valued field and container element as a (field tag, address) pair in
write order; `required` is the address of the node's `Required` backing
array; `extras` is the Extras map, whose values are either immutable
scalars or references into the slice heap.  `cloneList` is `cloneSchema`
lifted to a list of tagged roots, fueled for structural recursion; one root
with fuel `≥` tree height clones one schema.  `readList`/`readTree`
dereference a root to its pure value, reading `required` content and
`Extras` slice content through the heaps, so heap mutation is observable in
the value. -/

inductive EVal where
  | scalar (n : Nat)
  | strsRef (r : Nat)
deriving DecidableEq

structure HNode where
  scalars : Nat
  children : List (String × Nat)
  required : Option Nat
  extras : Option (List (String × EVal))
deriving DecidableEq

structure CloneStore where
  nodes : List HNode
  slices : List (List String)
deriving DecidableEq

/-- `copyStringSlice` on the `Required` address: allocate a fresh array
with the same content; `nil` stays `nil`. -/
def cloneReq (σ : CloneStore) : Option Nat → CloneStore × Option Nat
  | none => (σ, none)
  | some r => ({ σ with slices := σ.slices ++ [σ.slices.getD r []] }, some σ.slices.length)

/-- `cloneSchema` on a list of tagged roots: clone the node's children,
copy its required array, re-use its extras values (shallow `maps.Copy`),
append the new node.  The head clone and the tail both recurse on `fuel`,
so any `fuel` larger than the total number of reachable nodes succeeds. -/
def cloneList : Nat → CloneStore → List (String × Nat) →
    Option (CloneStore × List (String × Nat))
  | 0, _, _ => none
  | _ + 1, σ, [] => some (σ, [])
  | fuel + 1, σ, (tag, a) :: rest =>
    match σ.nodes[a]? with
    | none => none
    | some nd =>
      match cloneList fuel σ nd.children with
      | none => none
      | some (σ1, ch1) =>
        match cloneReq σ1 nd.required with
        | (σ2, req1) =>
          match cloneList fuel
              { nodes := σ2.nodes ++ [⟨nd.scalars, ch1, req1, nd.extras⟩],
                slices := σ2.slices } rest with
          | none => none
          | some (σ4, rest1) => some (σ4, (tag, σ2.nodes.length) :: rest1)

/-- The pure value of an Extras entry: scalar, or the current content of
the referenced string array. -/
inductive ExtVal where
  | scalar (n : Nat)
  | strs (content : List String)
deriving DecidableEq

/-- A schema value: scalars, tagged child values, required content, extras
values. -/
inductive PTree where
  | node (scalars : Nat) (children : List (String × PTree))
      (required : Option (List String)) (extras : Option (List (String × ExtVal)))

def readEVal (σ : CloneStore) : EVal → ExtVal
  | .scalar n => .scalar n
  | .strsRef r => .strs (σ.slices.getD r [])

def readExtras (σ : CloneStore) (e : Option (List (String × EVal))) :
    Option (List (String × ExtVal)) :=
  e.map (List.map (fun p => (p.1, readEVal σ p.2)))

def readList : Nat → CloneStore → List (String × Nat) → Option (List (String × PTree))
  | 0, _, _ => none
  | _ + 1, _, [] => some []
  | fuel + 1, σ, (tag, a) :: rest =>
    match σ.nodes[a]? with
    | none => none
    | some nd =>
      match readList fuel σ nd.children with
      | none => none
      | some ch =>
        match readList fuel σ rest with
        | none => none
        | some rest1 =>
          some ((tag, PTree.node nd.scalars ch
            (nd.required.map (fun r => σ.slices.getD r []))
            (readExtras σ nd.extras)) :: rest1)

def readTree : Nat → CloneStore → Nat → Option PTree
  | 0, _, _ => none
  | fuel + 1, σ, a =>
    match σ.nodes[a]? with
    | none => none
    | some nd =>
      match readList fuel σ nd.children with
      | none => none
      | some ch =>
        some (.node nd.scalars ch (nd.required.map (fun r => σ.slices.getD r []))
          (readExtras σ nd.extras))

/-- Overwrite a schema node in place (mutation of a returned tree's node). -/
def setNode (σ : CloneStore) (b : Nat) (nd : HNode) : CloneStore :=
  { σ with nodes := σ.nodes.set b nd }

/-- Overwrite a string backing array in place (mutation through a
`Required` slice or an Extras `[]string` value). -/
def setSlice (σ : CloneStore) (r : Nat) (v : List String) : CloneStore :=
  { σ with slices := σ.slices.set r v }

def ReqClosed (σ : CloneStore) : Option Nat → Prop
  | none => True
  | some r => r < σ.slices.length

def EValClosed (σ : CloneStore) : EVal → Prop
  | .scalar _ => True
  | .strsRef r => r < σ.slices.length

def ExtrasClosed (σ : CloneStore) : Option (List (String × EVal)) → Prop
  | none => True
  | some e => ∀ p ∈ e, EValClosed σ p.2

/-- Every address held by the node is allocated in the store. -/
def NodeClosed (σ : CloneStore) (nd : HNode) : Prop :=
  (∀ p ∈ nd.children, p.2 < σ.nodes.length) ∧
  ReqClosed σ nd.required ∧ ExtrasClosed σ nd.extras

def NodesClosed (σ : CloneStore) : Prop := ∀ nd ∈ σ.nodes, NodeClosed σ nd

/-- The new store keeps the old one as a prefix of both heaps. -/
def StoreExtends (σB σ : CloneStore) : Prop :=
  (∃ Δn, σB.nodes = σ.nodes ++ Δn) ∧ (∃ Δs, σB.slices = σ.slices ++ Δs)

/-- A node whose Extras map holds a `[]string` value living at slice
address 0 (what reflect.go 1156 produces for a duplicated extras tag key). -/
def extrasNode : HNode := ⟨7, [], none, some [("foo", .strsRef 0)]⟩

def cloneStore0 : CloneStore := ⟨[extrasNode], [["x"]]⟩

/-- `cloneStore0` after one clone of node 0. -/
def cloneStoreA : CloneStore := ⟨[extrasNode, extrasNode], [["x"]]⟩

/-- `cloneStoreA` after a second clone of node 0. -/
def cloneStore2 : CloneStore := ⟨[extrasNode, extrasNode, extrasNode], [["x"]]⟩

/-- The extras component of a read value. -/
def treeExtra0 : Option PTree → Option (List (String × ExtVal))
  | some (.node _ _ _ e) => e
  | _ => none

def emptyHNode : HNode := ⟨0, [], none, none⟩

/-- The `ok` projections of a walk result. -/
def walkOkSchema : WalkRes → Option Schema
  | .ok s _ => some s
  | _ => none

def walkOkDefs : WalkRes → Option Defs
  | .ok _ defs => some defs
  | _ => none

/-- `Properties.Get`. -/
def propertiesGet (props : List (String × Schema)) (key : String) : Option Schema :=
  (props.find? (fun p => p.1 = key)).map Prod.snd

/-- The single field of `envEmbedSelf`. -/
def embedSelfField : StructField :=
  { fname := "A2", anonymous := true, typ := .ptr (.named "A2") }

/-- The node `reflectStruct` builds before walking fields (its `t` local
after the object/properties/description/anchor/additionalProperties
updates). -/
def structInitNode (r : Reflector) (t : GoType) (s : Schema) : Schema :=
  ((((s.setTyp "object").setProperties []).setDescription
      (lookupComment t "")).setAnchor
      (if r.AssignAnchor then typeName t else s.core.anchor)).setAdditionalProperties
      (match s.core.additionalProperties with
       | none => if !r.AllowAdditionalProperties then some FalseSchema else none
       | some ap => some ap)

theorem splitGo_ne_nil (l : List Char) (buf : List Char) (e : Bool) :
    splitGo l buf e ≠ [] := by
  induction l generalizing buf e with
  | nil => simp [splitGo]
  | cons c rest ih =>
    simp only [splitGo]
    by_cases hc : c = ','
    · by_cases he : e = true
      · simp [hc, he]; exact ih _ _
      · simp only [hc, if_pos rfl]
        simp only [Bool.not_eq_true] at he
        simp [he]
    · simp [hc]; exact ih _ _

theorem splitGo_no_comma (l : List Char) (buf : List Char) (e : Bool)
    (h : ∀ c ∈ l, c ≠ ',') : splitGo l buf e = [String.mk (buf ++ l)] := by
  induction l generalizing buf e with
  | nil => simp [splitGo]
  | cons c rest ih =>
    have hc : c ≠ ',' := h c (List.mem_cons_self c rest)
    simp only [splitGo, if_neg hc]
    rw [ih (buf ++ [c]) (c = '\\') (fun d hd => h d (List.mem_cons_of_mem c hd))]
    simp

theorem string_mk_data (s : String) : String.mk s.data = s := by
  cases s; rfl

/-- C2: `splitOnUnescapedCommas` always returns a non-empty token list; the
empty string yields exactly one empty token; a comma-free string yields the
single token equal to the whole string (all backslashes preserved); and the
concrete annotation string with an escaped comma splits into exactly three
tokens whose third token carries the comma literally. -/
theorem C2_splitOnUnescapedCommas_spec :
    (∀ s : String, 1 ≤ (splitOnUnescapedCommas s).length)
    ∧ splitOnUnescapedCommas "" = [""]
    ∧ (∀ s : String, (∀ c ∈ s.data, c ≠ ',') → splitOnUnescapedCommas s = [s])
    ∧ splitOnUnescapedCommas "minLength=1,maxLength=20,pattern=^foo\\,bar$" =
        ["minLength=1", "maxLength=20", "pattern=^foo,bar$"] := by
  refine ⟨?_, rfl, ?_, by decide⟩
  · intro s
    unfold splitOnUnescapedCommas
    by_cases hs : s = ""
    · simp [hs]
    · simp only [if_neg hs]
      have := splitGo_ne_nil s.data [] false
      exact Nat.one_le_iff_ne_zero.mpr (fun hlen => this (List.eq_nil_of_length_eq_zero hlen))
  · intro s hnc
    unfold splitOnUnescapedCommas
    by_cases hs : s = ""
    · simp [hs]
    · simp only [if_neg hs]
      rw [splitGo_no_comma s.data [] false hnc]
      simp [string_mk_data]

/-- Witness for C2: instantiates the quantified parts at concrete inputs. -/
theorem C2_splitOnUnescapedCommas_spec_witness :
    splitOnUnescapedCommas "abc" = ["abc"] ∧ 1 ≤ (splitOnUnescapedCommas "a,b").length :=
  ⟨C2_splitOnUnescapedCommas_spec.2.2.1 "abc" (by decide),
   C2_splitOnUnescapedCommas_spec.1 "a,b"⟩

/-! ## Helper lemmas about the registry -/

theorem refDefinition_unnamed (r : Reflector) (defs : Defs) (t : GoType)
    (h : typeName t = "") : refDefinition r defs t = none := by
  unfold refDefinition
  cases hd : r.DoNotReference <;> simp [h]

theorem refDefinition_notFound (r : Reflector) (defs : Defs) (t : GoType)
    (h : defsLookup defs (typeName t) = none) : refDefinition r defs t = none := by
  unfold refDefinition
  cases hd : r.DoNotReference <;> simp [h]

/-! ## C8: byte slices become base64 strings -/

/-- C8 counterexample: `json.RawMessage` is itself a byte-sequence type
(slice kind with byte element), yet reflecting it yields the empty schema
node, not the base64 string node the claim promises for every byte-sequence
type. -/
theorem C8_rawMessage_is_byteslice_but_not_base64 :
    GoType.kind .rawMessageT = .sliceK ∧
    GoType.elem .rawMessageT = .prim .uint8 ∧
    reflectTypeToSchema defaultReflector [] 2 [] .rawMessageT = .ok emptySchema [] ∧
    emptySchema.core.typ = "" ∧
    emptySchema.core.contentEncoding = "" :=
  ⟨rfl, rfl, rfl, rfl, rfl⟩

/-- C8 (amended): for every byte-slice type other than the raw-JSON-message
type (and the IP leaf handled earlier), the node is exactly
`(type string, contentEncoding base64)` — never an array of integers — for
any reflector without a `Mapper` override, any environment, any registry and
any sufficient fuel. -/
theorem C8_byte_slice_base64 (r : Reflector) (env : Env) (defs : Defs) (fuel : Nat)
    (hm : r.Mapper = none) :
    reflectTypeToSchema r env (fuel + 2) defs (.sliceT (.prim .uint8)) =
      .ok (Schema.mk { typ := "string", contentEncoding := "base64" }) defs := by
  cases r with
  | mk BaseSchemaID Anonymous AssignAnchor AllowAdditionalProperties RFJST DNR
      ExpandedStruct FieldNameTag IgnoredTypes Lookup Mapper KeyNamer =>
    cases hm
    cases DNR <;> rfl

/-- Witness for C8: the amended equation evaluated at the default reflector. -/
theorem C8_byte_slice_base64_witness :
    reflectTypeToSchema defaultReflector [] (0 + 2) [] (.sliceT (.prim .uint8)) =
      .ok (Schema.mk { typ := "string", contentEncoding := "base64" }) [] :=
  C8_byte_slice_base64 defaultReflector [] [] 0 rfl

theorem finishReflect_ok_noDef (r : Reflector) (t : GoType) (st : Schema) (defs : Defs)
    (h : refDefinition r defs t = none) :
    finishReflect r t (.ok st defs) = .ok st defs := by
  simp [finishReflect, reflectSchemaExtend, h]

/-! ## C10: json.RawMessage yields the empty schema -/

/-- C10: reflecting `json.RawMessage` — a slice-of-byte type — returns the
empty schema node: no type, no content encoding, no items, no item-count
bounds; and the definitions registry is left exactly as it was (the type is
not registered), for any reflector without a `Mapper` override whose registry
does not already hold an unrelated "RawMessage" entry. -/
theorem C10_rawMessage_empty_schema :
    (∀ (r : Reflector) (env : Env) (defs : Defs) (fuel : Nat),
      r.Mapper = none → defsLookup defs "RawMessage" = none →
      reflectTypeToSchema r env (fuel + 2) defs .rawMessageT = .ok emptySchema defs)
    ∧ emptySchema.core.typ = ""
    ∧ emptySchema.core.contentEncoding = ""
    ∧ emptySchema.core.items = none
    ∧ emptySchema.core.minItems = none
    ∧ emptySchema.core.maxItems = none := by
  refine ⟨?_, rfl, rfl, rfl, rfl, rfl⟩
  intro r env defs fuel hm hd
  have h1 : reflectTypeToSchema r env (fuel + 2) defs .rawMessageT =
      finishReflect r .rawMessageT (.ok emptySchema defs) := by
    cases r with
    | mk BaseSchemaID Anonymous AssignAnchor AllowAdditionalProperties RFJST DNR
        ExpandedStruct FieldNameTag IgnoredTypes Lookup Mapper KeyNamer =>
      cases hm
      rfl
  rw [h1]
  exact finishReflect_ok_noDef r .rawMessageT emptySchema defs
    (refDefinition_notFound r defs .rawMessageT hd)

/-- Witness for C10 at the default reflector and the empty registry. -/
theorem C10_rawMessage_empty_schema_witness :
    reflectTypeToSchema defaultReflector [] (0 + 2) [] .rawMessageT = .ok emptySchema [] :=
  C10_rawMessage_empty_schema.1 defaultReflector [] [] 0 rfl rfl

/-! ## C5: map handling -/

/-- C5 counterexample: `map[uint]string` has a key of integer kind (the
dispatch reflects `uint` itself to an `integer` node), yet the map node is
built with `additionalProperties` set to the resolved value type and no
pattern properties — the signed-only case list of `reflectMap` skips the
unsigned kinds, contradicting the claim's `patternProperties` shape. -/
theorem C5_uint_key_counterexample :
    reflectTypeToSchema defaultReflector [] 20 [] (.mapT (.prim .uint) (.prim .stringK)) =
      .ok (Schema.mk {
        typ := "object",
        additionalProperties := some (Schema.mk { typ := "string" }) }) [] ∧
    reflectTypeToSchema defaultReflector [] 20 [] (.prim .uint) =
      .ok (Schema.mk { typ := "integer" }) [] :=
  ⟨rfl, rfl⟩

theorem reflectMap_eq (r : Reflector) (env : Env) (fuel : Nat) (defs : Defs)
    (key elem : GoType) :
    reflectMap r env (fuel + 1) defs (.mapT key elem) emptySchema =
      (if key.kind = .intK ∨ key.kind = .int8K ∨ key.kind = .int16K ∨
          key.kind = .int32K ∨ key.kind = .int64K then
        match refOrReflectTypeToSchema r env fuel defs elem with
        | .ok v defs2 =>
          .ok (Schema.mk {
            typ := "object",
            patternProperties := [("^[0-9]+$", v)],
            additionalProperties := some FalseSchema }) defs2
        | other => other
      else if elem.kind = .interfaceK then .ok (Schema.mk { typ := "object" }) defs
      else
        match refOrReflectTypeToSchema r env fuel defs elem with
        | .ok v defs2 =>
          .ok (Schema.mk {
            typ := "object",
            additionalProperties := some v }) defs2
        | other => other) := rfl

/-- C5 (amended): for every map type, if the key kind is a signed integer
kind the node is `(type object, patternProperties (digit pattern mapped to
the resolved value type), additionalProperties false)`; for any other key
kind the node is `(type object)` with `additionalProperties` set to the
resolved value type, left unset when the value type is interface-kinded. -/
theorem C5_reflectMap_spec :
    (∀ (r : Reflector) (env : Env) (defs defs' : Defs) (fuel : Nat)
        (key elem : GoType) (s' : Schema), r.Mapper = none →
      (key.kind = .intK ∨ key.kind = .int8K ∨ key.kind = .int16K ∨
        key.kind = .int32K ∨ key.kind = .int64K) →
      refOrReflectTypeToSchema r env fuel defs elem = .ok s' defs' →
      reflectTypeToSchema r env (fuel + 2) defs (.mapT key elem) =
        .ok (Schema.mk {
          typ := "object",
          patternProperties := [("^[0-9]+$", s')],
          additionalProperties := some FalseSchema }) defs')
    ∧ (∀ (r : Reflector) (env : Env) (defs defs' : Defs) (fuel : Nat)
        (key elem : GoType) (s' : Schema), r.Mapper = none →
      ¬(key.kind = .intK ∨ key.kind = .int8K ∨ key.kind = .int16K ∨
        key.kind = .int32K ∨ key.kind = .int64K) →
      elem.kind ≠ .interfaceK →
      refOrReflectTypeToSchema r env fuel defs elem = .ok s' defs' →
      reflectTypeToSchema r env (fuel + 2) defs (.mapT key elem) =
        .ok (Schema.mk {
          typ := "object",
          additionalProperties := some s' }) defs')
    ∧ (∀ (r : Reflector) (env : Env) (defs : Defs) (fuel : Nat)
        (key elem : GoType), r.Mapper = none →
      ¬(key.kind = .intK ∨ key.kind = .int8K ∨ key.kind = .int16K ∨
        key.kind = .int32K ∨ key.kind = .int64K) →
      elem.kind = .interfaceK →
      reflectTypeToSchema r env (fuel + 2) defs (.mapT key elem) =
        .ok (Schema.mk { typ := "object" }) defs) := by
  refine ⟨?_, ?_, ?_⟩
  · intro r env defs defs' fuel key elem s' hm hsig hrec
    have h1 : reflectTypeToSchema r env (fuel + 2) defs (.mapT key elem) =
        finishReflect r (.mapT key elem)
          (reflectMap r env (fuel + 1) defs (.mapT key elem) emptySchema) := by
      cases r with
      | mk BaseSchemaID Anonymous AssignAnchor AllowAdditionalProperties RFJST DNR
          ExpandedStruct FieldNameTag IgnoredTypes Lookup Mapper KeyNamer =>
        cases hm
        rfl
    rw [h1, reflectMap_eq, if_pos hsig, hrec]
    exact finishReflect_ok_noDef r _ _ defs'
      (refDefinition_unnamed r defs' (.mapT key elem) rfl)
  · intro r env defs defs' fuel key elem s' hm hsig hik hrec
    have h1 : reflectTypeToSchema r env (fuel + 2) defs (.mapT key elem) =
        finishReflect r (.mapT key elem)
          (reflectMap r env (fuel + 1) defs (.mapT key elem) emptySchema) := by
      cases r with
      | mk BaseSchemaID Anonymous AssignAnchor AllowAdditionalProperties RFJST DNR
          ExpandedStruct FieldNameTag IgnoredTypes Lookup Mapper KeyNamer =>
        cases hm
        rfl
    rw [h1, reflectMap_eq, if_neg hsig, if_neg hik, hrec]
    exact finishReflect_ok_noDef r _ _ defs'
      (refDefinition_unnamed r defs' (.mapT key elem) rfl)
  · intro r env defs fuel key elem hm hsig hik
    have h1 : reflectTypeToSchema r env (fuel + 2) defs (.mapT key elem) =
        finishReflect r (.mapT key elem)
          (reflectMap r env (fuel + 1) defs (.mapT key elem) emptySchema) := by
      cases r with
      | mk BaseSchemaID Anonymous AssignAnchor AllowAdditionalProperties RFJST DNR
          ExpandedStruct FieldNameTag IgnoredTypes Lookup Mapper KeyNamer =>
        cases hm
        rfl
    rw [h1, reflectMap_eq, if_neg hsig, if_pos hik]
    exact finishReflect_ok_noDef r _ _ defs
      (refDefinition_unnamed r defs (.mapT key elem) rfl)

/-- Witness for C5: a map with int64 keys, a map with string keys and string
values, and a map with string keys and interface values, all at the default
reflector. -/
theorem C5_reflectMap_spec_witness :
    reflectTypeToSchema defaultReflector [] (10 + 2) [] (.mapT (.prim .int64) (.prim .boolK)) =
      .ok (Schema.mk {
        typ := "object",
        patternProperties := [("^[0-9]+$", Schema.mk { typ := "boolean" })],
        additionalProperties := some FalseSchema }) [] ∧
    reflectTypeToSchema defaultReflector [] (10 + 2) [] (.mapT (.prim .stringK) (.prim .boolK)) =
      .ok (Schema.mk {
        typ := "object",
        additionalProperties := some (Schema.mk { typ := "boolean" }) }) [] ∧
    reflectTypeToSchema defaultReflector [] (10 + 2) [] (.mapT (.prim .stringK) .interfaceT) =
      .ok (Schema.mk { typ := "object" }) [] :=
  ⟨C5_reflectMap_spec.1 defaultReflector [] [] [] 10 (.prim .int64) (.prim .boolK)
      (Schema.mk { typ := "boolean" }) rfl (by decide) rfl,
   C5_reflectMap_spec.2.1 defaultReflector [] [] [] 10 (.prim .stringK) (.prim .boolK)
      (Schema.mk { typ := "boolean" }) rfl (by decide) (by decide) rfl,
   C5_reflectMap_spec.2.2 defaultReflector [] [] 10 (.prim .stringK) .interfaceT
      rfl (by decide) rfl⟩

/-! ## C9: dispatch by structural kind and fatal unsupported kinds -/

/-- C9: the structural-kind dispatch gives integer nodes for every integer
kind, number nodes for float kinds, boolean and string nodes for those kinds,
the empty (anything-goes) node for interface kinds; a kind outside the switch
is fatal, a fatal field resolution aborts the whole field walk rather than
skipping the field, and a struct containing an unreflectable field aborts the
entire top-level call. -/
theorem C9_kind_dispatch :
    (∀ (r : Reflector) (env : Env) (defs : Defs) (fuel : Nat) (k : PrimKind),
      r.Mapper = none → defsLookup defs (primName k) = none → isIntegerCase k = true →
      reflectTypeToSchema r env (fuel + 1) defs (.prim k) =
        .ok (Schema.mk { typ := "integer" }) defs)
    ∧ (∀ (r : Reflector) (env : Env) (defs : Defs) (fuel : Nat) (k : PrimKind),
      r.Mapper = none → defsLookup defs (primName k) = none → isFloatCase k = true →
      reflectTypeToSchema r env (fuel + 1) defs (.prim k) =
        .ok (Schema.mk { typ := "number" }) defs)
    ∧ (∀ (r : Reflector) (env : Env) (defs : Defs) (fuel : Nat),
      r.Mapper = none → defsLookup defs "bool" = none →
      reflectTypeToSchema r env (fuel + 1) defs (.prim .boolK) =
        .ok (Schema.mk { typ := "boolean" }) defs)
    ∧ (∀ (r : Reflector) (env : Env) (defs : Defs) (fuel : Nat),
      r.Mapper = none → defsLookup defs "string" = none →
      reflectTypeToSchema r env (fuel + 1) defs (.prim .stringK) =
        .ok (Schema.mk { typ := "string" }) defs)
    ∧ (∀ (r : Reflector) (env : Env) (defs : Defs) (fuel : Nat),
      r.Mapper = none →
      reflectTypeToSchema r env (fuel + 1) defs .interfaceT = .ok emptySchema defs)
    ∧ (∀ (r : Reflector) (env : Env) (defs : Defs) (fuel : Nat) (k : PrimKind),
      r.Mapper = none → isUnsupportedCase k = true →
      reflectTypeToSchema r env (fuel + 1) defs (.prim k) =
        .fatal ("unsupported type " ++ primName k))
    ∧ (∀ (r : Reflector) (env : Env) (fuel : Nat) (defs : Defs) (st : Schema)
        (f : StructField) (rest : List StructField) (name : String)
        (required nullable : Bool) (msg : String),
      reflectFieldName r f (parseFieldTagsForField f) = (name, false, required, nullable) →
      name ≠ "" →
      refOrReflectTypeToSchema r env fuel defs f.typ = .fatal msg →
      walkFields r env (fuel + 1) defs st (f :: rest) = .fatal msg)
    ∧ ReflectFromType defaultReflector envUnsupportedField 20 (.named "B") =
        .fatal "unsupported type func" := by
  refine ⟨?_, ?_, ?_, ?_, ?_, ?_, ?_, rfl⟩
  · intro r env defs fuel k hm hd hk
    cases r with
    | mk BaseSchemaID Anonymous AssignAnchor AllowAdditionalProperties RFJST DNR
        ExpandedStruct FieldNameTag IgnoredTypes Lookup Mapper KeyNamer =>
      cases hm
      cases k <;> first
        | exact absurd hk (by decide)
        | exact finishReflect_ok_noDef _ _ _ _ (refDefinition_notFound _ _ _ hd)
  · intro r env defs fuel k hm hd hk
    cases r with
    | mk BaseSchemaID Anonymous AssignAnchor AllowAdditionalProperties RFJST DNR
        ExpandedStruct FieldNameTag IgnoredTypes Lookup Mapper KeyNamer =>
      cases hm
      cases k <;> first
        | exact absurd hk (by decide)
        | exact finishReflect_ok_noDef _ _ _ _ (refDefinition_notFound _ _ _ hd)
  · intro r env defs fuel hm hd
    cases r with
    | mk BaseSchemaID Anonymous AssignAnchor AllowAdditionalProperties RFJST DNR
        ExpandedStruct FieldNameTag IgnoredTypes Lookup Mapper KeyNamer =>
      cases hm
      exact finishReflect_ok_noDef _ _ _ _ (refDefinition_notFound _ _ _ hd)
  · intro r env defs fuel hm hd
    cases r with
    | mk BaseSchemaID Anonymous AssignAnchor AllowAdditionalProperties RFJST DNR
        ExpandedStruct FieldNameTag IgnoredTypes Lookup Mapper KeyNamer =>
      cases hm
      exact finishReflect_ok_noDef _ _ _ _ (refDefinition_notFound _ _ _ hd)
  · intro r env defs fuel hm
    cases r with
    | mk BaseSchemaID Anonymous AssignAnchor AllowAdditionalProperties RFJST DNR
        ExpandedStruct FieldNameTag IgnoredTypes Lookup Mapper KeyNamer =>
      cases hm
      exact finishReflect_ok_noDef _ _ _ _
        (refDefinition_unnamed _ _ .interfaceT rfl)
  · intro r env defs fuel k hm hk
    cases r with
    | mk BaseSchemaID Anonymous AssignAnchor AllowAdditionalProperties RFJST DNR
        ExpandedStruct FieldNameTag IgnoredTypes Lookup Mapper KeyNamer =>
      cases hm
      cases k <;> first
        | exact absurd hk (by decide)
        | rfl
  · intro r env fuel defs st f rest name required nullable msg hrfn hname hres
    simp only [walkFields, hrfn]
    rw [if_neg hname, hres]

/-- Witness for C9 at concrete kinds, registries and a concrete failing
field. -/
theorem C9_kind_dispatch_witness :
    reflectTypeToSchema defaultReflector [] (0 + 1) [] (.prim .uint16) =
      .ok (Schema.mk { typ := "integer" }) [] ∧
    reflectTypeToSchema defaultReflector [] (0 + 1) [] (.prim .float32) =
      .ok (Schema.mk { typ := "number" }) [] ∧
    reflectTypeToSchema defaultReflector [] (0 + 1) [] (.prim .boolK) =
      .ok (Schema.mk { typ := "boolean" }) [] ∧
    reflectTypeToSchema defaultReflector [] (0 + 1) [] (.prim .stringK) =
      .ok (Schema.mk { typ := "string" }) [] ∧
    reflectTypeToSchema defaultReflector [] (0 + 1) [] .interfaceT = .ok emptySchema [] ∧
    reflectTypeToSchema defaultReflector [] (0 + 1) [] (.prim .uintptrT) =
      .fatal ("unsupported type " ++ primName .uintptrT) ∧
    walkFields defaultReflector [] (3 + 1) [] emptySchema
        [{ fname := "C", jsonTag := "c", typ := .prim .funcT }] =
      .fatal "unsupported type func" :=
  ⟨C9_kind_dispatch.1 defaultReflector [] [] 0 .uint16 rfl rfl rfl,
   C9_kind_dispatch.2.1 defaultReflector [] [] 0 .float32 rfl rfl rfl,
   C9_kind_dispatch.2.2.1 defaultReflector [] [] 0 rfl rfl,
   C9_kind_dispatch.2.2.2.1 defaultReflector [] [] 0 rfl rfl,
   C9_kind_dispatch.2.2.2.2.1 defaultReflector [] [] 0 rfl,
   C9_kind_dispatch.2.2.2.2.2.1 defaultReflector [] [] 0 .uintptrT rfl rfl,
   C9_kind_dispatch.2.2.2.2.2.2.1 defaultReflector [] 3 [] emptySchema
     { fname := "C", jsonTag := "c", typ := .prim .funcT } [] "c" true false
     "unsupported type func" rfl (by decide) rfl⟩

/-! ## C4: requiredness bookkeeping -/

theorem appendUniqueString_nodup (base : List String) (v : String)
    (h : base.Nodup) : (appendUniqueString base v).Nodup := by
  unfold appendUniqueString
  split_ifs with hv
  · exact h
  · simpa [List.nodup_append] using ⟨h, hv⟩

theorem mem_appendUniqueString (base : List String) (v n : String) :
    n ∈ appendUniqueString base v ↔ n ∈ base ∨ n = v := by
  unfold appendUniqueString
  split_ifs with hv
  · constructor
    · exact Or.inl
    · rintro (h | rfl) <;> [exact h; exact hv]
  · simp

theorem genericKeywords_parent_required (tags : List String) :
    ∀ (t parent : Schema) (pn : String),
      ((genericKeywords t tags parent pn).2.2).core.required = parent.core.required := by
  induction tags with
  | nil => intro t parent pn; rfl
  | cons tag rest ih =>
    intro t parent pn
    simp only [genericKeywords]
    split
    · exact ih t parent pn
    next name val heq =>
      by_cases h1 : name = "title"
      · rw [if_pos h1]; exact ih _ _ _
      rw [if_neg h1]
      by_cases h2 : name = "description"
      · rw [if_pos h2]; exact ih _ _ _
      rw [if_neg h2]
      by_cases h3 : name = "type"
      · rw [if_pos h3]; exact ih _ _ _
      rw [if_neg h3]
      by_cases h4 : name = "anchor"
      · rw [if_pos h4]; exact ih _ _ _
      rw [if_neg h4]
      by_cases h5 : name = "oneof_required"
      · rw [if_pos h5]; exact ih _ _ _
      rw [if_neg h5]
      by_cases h6 : name = "anyof_required"
      · rw [if_pos h6]; exact ih _ _ _
      rw [if_neg h6]
      by_cases h7 : name = "oneof_ref"
      · rw [if_pos h7]; exact ih _ _ _
      rw [if_neg h7]
      by_cases h8 : name = "oneof_type"
      · rw [if_pos h8]; exact ih _ _ _
      rw [if_neg h8]
      by_cases h9 : name = "anyof_ref"
      · rw [if_pos h9]; exact ih _ _ _
      rw [if_neg h9]
      by_cases h10 : name = "anyof_type"
      · rw [if_pos h10]; exact ih _ _ _
      rw [if_neg h10]
      rcases hg : genericKeywords t rest parent pn with ⟨unp, oT, oP⟩
      have hr := ih t parent pn
      rw [hg] at hr
      exact hr

theorem structKeywordsFromTags_parent_required (p : Schema) (f : StructField)
    (st : Schema) (n : String) (tags : fieldTags) :
    ((structKeywordsFromTags p f st n tags).2).core.required = st.core.required := by
  unfold structKeywordsFromTags
  rcases hg : genericKeywords (p.setDescription f.jsonschemaDescTag)
      tags.jsonschemaTags st n with ⟨unp, t1, p1⟩
  have h2 := genericKeywords_parent_required tags.jsonschemaTags
    (p.setDescription f.jsonschemaDescTag) st n
  rw [hg] at h2
  simp only [hg]
  simpa using h2

theorem walkFields_nil_eq (r : Reflector) (env : Env) (fuel : Nat)
    (defs : Defs) (st : Schema) :
    walkFields r env (fuel + 1) defs st [] = .ok st defs := rfl

theorem walkFields_cons_eq (r : Reflector) (env : Env) (fuel : Nat)
    (defs : Defs) (st : Schema) (f : StructField) (rest : List StructField) :
    walkFields r env (fuel + 1) defs st (f :: rest) =
      (match reflectFieldName r f (parseFieldTagsForField f) with
       | (name, shouldEmbed, required, nullable) =>
         if name = "" then
           if shouldEmbed then
             match reflectStructFields r env fuel defs f.typ st with
             | .ok st' defs' => walkFields r env fuel defs' st' rest
             | other => other
           else walkFields r env fuel defs st rest
         else
           match refOrReflectTypeToSchema r env fuel defs f.typ with
           | .ok property defs' =>
             walkFields r env fuel defs'
               (insertFieldProperty property f st name (parseFieldTagsForField f)
                 required nullable) rest
           | other => other) := rfl

theorem reflectStructFields_eq (r : Reflector) (env : Env) (fuel : Nat)
    (defs : Defs) (t0 : GoType) (st : Schema) :
    reflectStructFields r env (fuel + 1) defs t0 st =
      (let t :=
        match t0 with
        | .ptr e => e
        | t0 => t0
       if t.kind = .structK then
         match structFields env t with
         | none => .fatal ("unknown struct type " ++ typeName t)
         | some fields => walkFields r env fuel defs st fields
       else .ok st defs) := rfl

theorem setProperties_required (s : Schema) (v : List (String × Schema)) :
    (s.setProperties v).core.required = s.core.required := rfl

theorem setRequired_required (s : Schema) (v : List String) :
    (s.setRequired v).core.required = v := rfl

theorem insertFieldProperty_required (property : Schema) (f : StructField)
    (st : Schema) (name : String) (tags : fieldTags) (required nullable : Bool) :
    (insertFieldProperty property f st name tags required nullable).core.required =
      if required then appendUniqueString st.core.required name else st.core.required := by
  unfold insertFieldProperty
  rcases hsk : structKeywordsFromTags property f st name tags with ⟨prop1, st1⟩
  have hst1 : st1.core.required = st.core.required := by
    have := structKeywordsFromTags_parent_required property f st name tags
    rw [hsk] at this
    exact this
  cases required <;>
    simp [setProperties_required, setRequired_required, hst1]

theorem insertFieldProperty_required_nodup (property : Schema) (f : StructField)
    (st : Schema) (name : String) (tags : fieldTags) (required nullable : Bool)
    (hnd : st.core.required.Nodup) :
    (insertFieldProperty property f st name tags required nullable).core.required.Nodup := by
  rw [insertFieldProperty_required]
  cases required with
  | false => simpa using hnd
  | true => simpa using appendUniqueString_nodup _ _ hnd

/-- Joint fuel induction: the required list stays duplicate-free through
field processing (appends go through `appendUniqueString`; keyword grafting
leaves the parent's required list untouched). -/
theorem walk_required_nodup (r : Reflector) (env : Env) : ∀ fuel : Nat,
    (∀ defs t st s' d', reflectStructFields r env fuel defs t st = .ok s' d' →
      st.core.required.Nodup → s'.core.required.Nodup)
    ∧ (∀ defs st fields s' d', walkFields r env fuel defs st fields = .ok s' d' →
      st.core.required.Nodup → s'.core.required.Nodup) := by
  intro fuel
  induction fuel with
  | zero =>
    constructor
    · intro defs t st s' d' h
      exact absurd h (by simp [reflectStructFields])
    · intro defs st fields s' d' h
      exact absurd h (by simp [walkFields])
  | succ fuel ih =>
    constructor
    · intro defs t st s' d' h hnd
      rw [reflectStructFields_eq] at h
      simp only [] at h
      split at h
      · split at h
        · exact absurd h (by simp)
        · exact ih.2 _ _ _ _ _ h hnd
      · injection h with h1 h2
        subst h1
        exact hnd
    · intro defs st fields s' d' h hnd
      cases fields with
      | nil =>
        rw [walkFields_nil_eq] at h
        injection h with h1 h2
        subst h1
        exact hnd
      | cons f rest =>
        rw [walkFields_cons_eq] at h
        rcases hrfn : reflectFieldName r f (parseFieldTagsForField f) with
          ⟨name, emb, req, nul⟩
        rw [hrfn] at h
        simp only [] at h
        by_cases hname : name = ""
        · rw [if_pos hname] at h
          cases emb with
          | false =>
            rw [if_neg (by simp)] at h
            exact ih.2 _ _ _ _ _ h hnd
          | true =>
            rw [if_pos rfl] at h
            cases hm : reflectStructFields r env fuel defs f.typ st with
            | ok st1 d1 =>
              rw [hm] at h
              exact ih.2 _ _ _ _ _ h (ih.1 _ _ _ _ _ hm hnd)
            | fatal m =>
              rw [hm] at h
              exact absurd h (by simp)
            | outOfFuel =>
              rw [hm] at h
              exact absurd h (by simp)
        · rw [if_neg hname] at h
          cases hres : refOrReflectTypeToSchema r env fuel defs f.typ with
          | ok prop defs1 =>
            rw [hres] at h
            have h2 : walkFields r env fuel defs1
                (insertFieldProperty prop f st name (parseFieldTagsForField f) req nul)
                rest = .ok s' d' := h
            refine ih.2 _ _ _ _ _ h2 ?_
            exact insertFieldProperty_required_nodup prop f st name
              (parseFieldTagsForField f) req nul hnd
          | fatal m =>
            rw [hres] at h
            exact absurd h (by simp)
          | outOfFuel =>
            rw [hres] at h
            exact absurd h (by simp)

theorem requiredFromJSONSchemaTags_true (tags : List String) :
    requiredFromJSONSchemaTags tags true = true := by
  unfold requiredFromJSONSchemaTags
  split_ifs <;> rfl

theorem requiredFromJSONSchemaTags_noToken (tags : List String) (val : Bool)
    (ht : tags.contains "required" = false) :
    requiredFromJSONSchemaTags tags val = val := by
  unfold requiredFromJSONSchemaTags
  split_ifs with h1 h2
  · rfl
  · rw [ht] at h2
    exact absurd h2 (by simp)
  · rfl

theorem requiredFromJSONTags_marker (tags : List String) (val : Bool)
    (hig : ignoredByJSONTags tags = false)
    (hm : (tags.drop 1).any (fun tag => tag == "omitempty" || tag == "omitzero") = true) :
    requiredFromJSONTags tags val = false := by
  unfold requiredFromJSONTags
  rw [hig, hm]
  rfl

theorem requiredFromJSONTags_nomarker (tags : List String) (val : Bool)
    (hig : ignoredByJSONTags tags = false)
    (hm : (tags.drop 1).any (fun tag => tag == "omitempty" || tag == "omitzero") = false) :
    requiredFromJSONTags tags val = true := by
  unfold requiredFromJSONTags
  rw [hig, hm]
  rfl

theorem reflectFieldName_eq (r : Reflector) (f : StructField) (tags : fieldTags) :
    reflectFieldName r f tags =
      (if ignoredByJSONTags tags.jsonTags then ("", false, false, false)
       else if ignoredByJSONSchemaTags tags.jsonschemaTags then ("", false, false, false)
       else if f.anonymous && tags.jsonTags.headD "" == "" && f.typ.kind == .structK then
         ("", true, false, false)
       else if f.anonymous && tags.jsonTags.headD "" == "" && f.typ.kind == .ptrK &&
           f.typ.elem.kind == .structK then
         ("", true, false, false)
       else if inlinedByJSONTags tags.jsonTags then ("", true, false, false)
       else
         ((if !f.anonymous && f.pkgPath ≠ "" then ""
           else
             match r.KeyNamer with
             | some kn =>
               kn (if tags.jsonTags.headD "" ≠ "" then tags.jsonTags.headD "" else f.fname)
             | none => if tags.jsonTags.headD "" ≠ "" then tags.jsonTags.headD "" else f.fname),
          false,
          requiredFromJSONSchemaTags tags.jsonschemaTags
            (if !r.RequiredFromJSONSchemaTags then requiredFromJSONTags tags.jsonTags false
             else false),
          nullableFromJSONSchemaTags tags.jsonschemaTags)) := rfl

/-- A field whose jsonschema annotation lacks the `required` token is not
required whenever its name annotation carries an omit-if-empty marker
(`omitempty` or `omitzero`). -/
theorem reflectFieldName_marker_not_required (r : Reflector) (f : StructField)
    (hm : (((parseFieldTagsForField f).jsonTags).drop 1).any
      (fun tg => tg == "omitempty" || tg == "omitzero") = true)
    (ht : ((parseFieldTagsForField f).jsonschemaTags).contains "required" = false) :
    (reflectFieldName r f (parseFieldTagsForField f)).2.2.1 = false := by
  rw [reflectFieldName_eq]
  by_cases h1 : ignoredByJSONTags (parseFieldTagsForField f).jsonTags
  · rw [if_pos h1]
  rw [if_neg h1]
  by_cases h2 : ignoredByJSONSchemaTags (parseFieldTagsForField f).jsonschemaTags
  · rw [if_pos h2]
  rw [if_neg h2]
  by_cases h3 : (f.anonymous && (parseFieldTagsForField f).jsonTags.headD "" == "" &&
      f.typ.kind == GoKind.structK) = true
  · rw [if_pos h3]
  rw [if_neg h3]
  by_cases h4 : (f.anonymous && (parseFieldTagsForField f).jsonTags.headD "" == "" &&
      f.typ.kind == GoKind.ptrK && f.typ.elem.kind == GoKind.structK) = true
  · rw [if_pos h4]
  rw [if_neg h4]
  by_cases h5 : inlinedByJSONTags (parseFieldTagsForField f).jsonTags
  · rw [if_pos h5]
  rw [if_neg h5]
  show requiredFromJSONSchemaTags (parseFieldTagsForField f).jsonschemaTags _ = false
  rw [requiredFromJSONSchemaTags_noToken _ _ ht]
  cases htog : r.RequiredFromJSONSchemaTags with
  | false =>
    show requiredFromJSONTags (parseFieldTagsForField f).jsonTags false = false
    exact requiredFromJSONTags_marker _ _ (by simpa using h1) hm
  | true => rfl

/-- A field whose name annotation carries no omit-if-empty marker and which
resolves to a non-empty property name is required under the default
(json-tag-driven) requiredness regime, whatever the jsonschema tokens say. -/
theorem reflectFieldName_nomarker_required (r : Reflector) (f : StructField)
    (htog : r.RequiredFromJSONSchemaTags = false)
    (hm : (((parseFieldTagsForField f).jsonTags).drop 1).any
      (fun tg => tg == "omitempty" || tg == "omitzero") = false)
    (hname : (reflectFieldName r f (parseFieldTagsForField f)).1 ≠ "") :
    (reflectFieldName r f (parseFieldTagsForField f)).2.2.1 = true := by
  rw [reflectFieldName_eq] at hname ⊢
  by_cases h1 : ignoredByJSONTags (parseFieldTagsForField f).jsonTags
  · rw [if_pos h1] at hname
    exact absurd rfl hname
  rw [if_neg h1] at hname ⊢
  by_cases h2 : ignoredByJSONSchemaTags (parseFieldTagsForField f).jsonschemaTags
  · rw [if_pos h2] at hname
    exact absurd rfl hname
  rw [if_neg h2] at hname ⊢
  by_cases h3 : (f.anonymous && (parseFieldTagsForField f).jsonTags.headD "" == "" &&
      f.typ.kind == GoKind.structK) = true
  · rw [if_pos h3] at hname
    exact absurd rfl hname
  rw [if_neg h3] at hname ⊢
  by_cases h4 : (f.anonymous && (parseFieldTagsForField f).jsonTags.headD "" == "" &&
      f.typ.kind == GoKind.ptrK && f.typ.elem.kind == GoKind.structK) = true
  · rw [if_pos h4] at hname
    exact absurd rfl hname
  rw [if_neg h4] at hname ⊢
  by_cases h5 : inlinedByJSONTags (parseFieldTagsForField f).jsonTags
  · rw [if_pos h5] at hname
    exact absurd rfl hname
  rw [if_neg h5] at hname ⊢
  show requiredFromJSONSchemaTags (parseFieldTagsForField f).jsonschemaTags _ = true
  rw [htog]
  show requiredFromJSONSchemaTags (parseFieldTagsForField f).jsonschemaTags
    (requiredFromJSONTags (parseFieldTagsForField f).jsonTags false) = true
  rw [requiredFromJSONTags_nomarker _ _ (by simpa using h1) hm]
  exact requiredFromJSONSchemaTags_true _

/-- Membership in the required list after a field walk with no embedded
fields: a name is required exactly when it was already required or some field
resolves to it with the required flag set. -/
theorem walkFields_required_mem (r : Reflector) (env : Env) : ∀ (fuel : Nat),
    ∀ (defs : Defs) (st : Schema) (fields : List StructField) (s' : Schema) (d' : Defs),
    (∀ f ∈ fields, (reflectFieldName r f (parseFieldTagsForField f)).2.1 = false) →
    walkFields r env fuel defs st fields = .ok s' d' →
    ∀ n, n ∈ s'.core.required ↔ n ∈ st.core.required ∨
      ∃ f ∈ fields, (reflectFieldName r f (parseFieldTagsForField f)).1 = n ∧
        (reflectFieldName r f (parseFieldTagsForField f)).2.2.1 = true ∧ n ≠ "" := by
  intro fuel
  induction fuel with
  | zero =>
    intro defs st fields s' d' hne h
    exact absurd h (by simp [walkFields])
  | succ fuel ih =>
    intro defs st fields s' d' hne h
    cases fields with
    | nil =>
      rw [walkFields_nil_eq] at h
      injection h with h1 h2
      subst h1
      simp
    | cons f rest =>
      rw [walkFields_cons_eq] at h
      rcases hrfn : reflectFieldName r f (parseFieldTagsForField f) with
        ⟨name, emb, req, nul⟩
      rw [hrfn] at h
      simp only [] at h
      have hembf : emb = false := by
        have := hne f (List.mem_cons_self f rest)
        rw [hrfn] at this
        exact this
      subst hembf
      have hnerest : ∀ g ∈ rest, (reflectFieldName r g (parseFieldTagsForField g)).2.1 = false :=
        fun g hg => hne g (List.mem_cons_of_mem f hg)
      by_cases hname : name = ""
      · rw [if_pos hname] at h
        simp only [if_neg (by simp : ¬(false = true))] at h
        intro n
        rw [ih defs st rest s' d' hnerest h n]
        constructor
        · rintro (hst | ⟨g, hg, hgn⟩)
          · exact Or.inl hst
          · exact Or.inr ⟨g, List.mem_cons_of_mem f hg, hgn⟩
        · rintro (hst | ⟨g, hg, hg1, hg2, hg3⟩)
          · exact Or.inl hst
          · rcases List.mem_cons.mp hg with rfl | hg'
            · rw [hrfn] at hg1
              exact absurd (hname ▸ hg1.symm) hg3
            · exact Or.inr ⟨g, hg', hg1, hg2, hg3⟩
      · rw [if_neg hname] at h
        cases hres : refOrReflectTypeToSchema r env fuel defs f.typ with
        | ok prop defs1 =>
          rw [hres] at h
          have h2 : walkFields r env fuel defs1
              (insertFieldProperty prop f st name (parseFieldTagsForField f) req nul)
              rest = .ok s' d' := h
          intro n
          rw [ih defs1 _ rest s' d' hnerest h2 n]
          have hmem : n ∈ (insertFieldProperty prop f st name (parseFieldTagsForField f)
              req nul).core.required ↔ n ∈ st.core.required ∨ (req = true ∧ n = name) := by
            rw [insertFieldProperty_required]
            cases req with
            | false => simp
            | true => simp [mem_appendUniqueString]
          rw [hmem]
          constructor
          · rintro ((hst | ⟨hreq, rfl⟩) | ⟨g, hg, hgn⟩)
            · exact Or.inl hst
            · exact Or.inr ⟨f, List.mem_cons_self f rest, by rw [hrfn], by rw [hrfn]; exact hreq,
                hname⟩
            · exact Or.inr ⟨g, List.mem_cons_of_mem f hg, hgn⟩
          · rintro (hst | ⟨g, hg, hg1, hg2, hg3⟩)
            · exact Or.inl (Or.inl hst)
            · rcases List.mem_cons.mp hg with rfl | hg'
              · rw [hrfn] at hg1 hg2
                exact Or.inl (Or.inr ⟨hg2, hg1.symm⟩)
              · exact Or.inr ⟨g, hg', hg1, hg2, hg3⟩
        | fatal m =>
          rw [hres] at h
          exact absurd h (by simp)
        | outOfFuel =>
          rw [hres] at h
          exact absurd h (by simp)

/-- C4 counterexample: a field whose primary name annotation carries the
omit-if-empty marker but whose jsonschema annotation carries the `required`
token IS present in the parent's required list — `requiredFromJSONSchemaTags`
runs after (and overrides) the json-tag rule, so the claim's first half fails
as stated. -/
theorem C4_omitempty_overridden_counterexample :
    (((parseFieldTagsForField fieldOmitEmptyRequired).jsonTags).drop 1).contains
      "omitempty" = true ∧
    reflectFieldName defaultReflector fieldOmitEmptyRequired
      (parseFieldTagsForField fieldOmitEmptyRequired) = ("f", false, true, false) ∧
    (match walkFields defaultReflector [] 5 [] emptySchema [fieldOmitEmptyRequired] with
      | .ok s _ => s.core.required
      | _ => []) = ["f"] :=
  ⟨rfl, rfl, rfl⟩

/-- C4 (amended): a field whose primary annotation carries the omit-if-empty
marker is not required — hence absent from the parent's required list —
unless the jsonschema `required` token overrides the marker; a field without
the marker that resolves to a name is required under the default regime, and
its name appears in the required list exactly once (the list stays
duplicate-free) even when both requiredness mechanisms fire. -/
theorem C4_required_bookkeeping :
    (∀ (r : Reflector) (f : StructField),
      (((parseFieldTagsForField f).jsonTags).drop 1).any
        (fun tg => tg == "omitempty" || tg == "omitzero") = true →
      ((parseFieldTagsForField f).jsonschemaTags).contains "required" = false →
      (reflectFieldName r f (parseFieldTagsForField f)).2.2.1 = false)
    ∧ (∀ (r : Reflector) (f : StructField),
      r.RequiredFromJSONSchemaTags = false →
      (((parseFieldTagsForField f).jsonTags).drop 1).any
        (fun tg => tg == "omitempty" || tg == "omitzero") = false →
      (reflectFieldName r f (parseFieldTagsForField f)).1 ≠ "" →
      (reflectFieldName r f (parseFieldTagsForField f)).2.2.1 = true)
    ∧ (∀ (r : Reflector) (env : Env) (fuel : Nat) (defs : Defs) (st : Schema)
        (fields : List StructField) (s' : Schema) (d' : Defs),
      walkFields r env fuel defs st fields = .ok s' d' →
      st.core.required.Nodup → s'.core.required.Nodup)
    ∧ (∀ (r : Reflector) (env : Env) (fuel : Nat) (defs : Defs) (st : Schema)
        (fields : List StructField) (s' : Schema) (d' : Defs) (n : String),
      (∀ f ∈ fields, (reflectFieldName r f (parseFieldTagsForField f)).2.1 = false) →
      walkFields r env fuel defs st fields = .ok s' d' →
      st.core.required = [] →
      (∀ f ∈ fields, (reflectFieldName r f (parseFieldTagsForField f)).1 = n →
        (reflectFieldName r f (parseFieldTagsForField f)).2.2.1 = false) →
      n ∉ s'.core.required)
    ∧ (∀ (r : Reflector) (env : Env) (fuel : Nat) (defs : Defs) (st : Schema)
        (fields : List StructField) (s' : Schema) (d' : Defs) (n : String),
      (∀ f ∈ fields, (reflectFieldName r f (parseFieldTagsForField f)).2.1 = false) →
      walkFields r env fuel defs st fields = .ok s' d' →
      st.core.required = [] →
      (∃ f ∈ fields, (reflectFieldName r f (parseFieldTagsForField f)).1 = n ∧
        (reflectFieldName r f (parseFieldTagsForField f)).2.2.1 = true ∧ n ≠ "") →
      s'.core.required.count n = 1) := by
  refine ⟨reflectFieldName_marker_not_required, reflectFieldName_nomarker_required,
    ?_, ?_, ?_⟩
  · intro r env fuel defs st fields s' d' h hnd
    exact (walk_required_nodup r env fuel).2 defs st fields s' d' h hnd
  · intro r env fuel defs st fields s' d' n hne h hst hnone
    rw [walkFields_required_mem r env fuel defs st fields s' d' hne h n, hst]
    rintro (hmem | ⟨f, hf, hf1, hf2, _⟩)
    · exact absurd hmem (List.not_mem_nil n)
    · rw [hnone f hf hf1] at hf2
      exact absurd hf2 (by simp)
  · intro r env fuel defs st fields s' d' n hne h hst hex
    have hmem : n ∈ s'.core.required := by
      rw [walkFields_required_mem r env fuel defs st fields s' d' hne h n, hst]
      exact Or.inr hex
    have hnd : s'.core.required.Nodup :=
      (walk_required_nodup r env fuel).2 defs st fields s' d' h (by rw [hst]; exact List.nodup_nil)
    exact List.count_eq_one_of_mem hnd hmem

/-- Witness for C4: the marker alone suppresses requiredness, a plain field
is required, and processing a single plain field yields a required list in
which the name appears exactly once. -/
theorem C4_required_bookkeeping_witness :
    (reflectFieldName defaultReflector fieldOmitOnly
      (parseFieldTagsForField fieldOmitOnly)).2.2.1 = false ∧
    (reflectFieldName defaultReflector fieldPlain
      (parseFieldTagsForField fieldPlain)).2.2.1 = true ∧
    ((insertFieldProperty (emptySchema.setTyp "string") fieldPlain emptySchema "f"
      (parseFieldTagsForField fieldPlain) true false).core.required.count "f" = 1 ∧
     "g" ∉ (insertFieldProperty (emptySchema.setTyp "string") fieldPlain emptySchema "f"
      (parseFieldTagsForField fieldPlain) true false).core.required) := by
  have hW : walkFields defaultReflector [] 5 [] emptySchema [fieldPlain] =
      .ok (insertFieldProperty (emptySchema.setTyp "string") fieldPlain emptySchema "f"
        (parseFieldTagsForField fieldPlain) true false) [] := rfl
  refine ⟨C4_required_bookkeeping.1 defaultReflector fieldOmitOnly (by decide) (by decide),
    C4_required_bookkeeping.2.1 defaultReflector fieldPlain rfl (by decide) (by decide),
    C4_required_bookkeeping.2.2.2.2 defaultReflector [] 5 [] emptySchema [fieldPlain] _ _ "f"
      (by intro g hg; rcases List.mem_singleton.mp hg with rfl; decide) hW rfl
      ⟨fieldPlain, List.mem_singleton.mpr rfl, by decide, by decide, by decide⟩,
    C4_required_bookkeeping.2.2.2.1 defaultReflector [] 5 [] emptySchema [fieldPlain] _ _ "g"
      (by intro g hg; rcases List.mem_singleton.mp hg with rfl; decide) hW rfl
      (by intro g hg; rcases List.mem_singleton.mp hg with rfl; intro hgn; exact absurd hgn (by decide))⟩

/-! ## C6: fingerprint distinctness and collisions -/

theorem fnvStep_lt (h b : Nat) : fnvStep h b < 2 ^ 64 :=
  Nat.mod_lt _ (by decide)

theorem fnvStep_inj (b h1 h2 : Nat) (hb : b < 2 ^ 64) (h1lt : h1 < 2 ^ 64)
    (h2lt : h2 < 2 ^ 64) (heq : fnvStep h1 b = fnvStep h2 b) : h1 = h2 := by
  unfold fnvStep at heq
  have hx : h1 ^^^ b < 2 ^ 64 := Nat.xor_lt_two_pow h1lt hb
  have hy : h2 ^^^ b < 2 ^ 64 := Nat.xor_lt_two_pow h2lt hb
  have hmod : (h1 ^^^ b) ≡ (h2 ^^^ b) [MOD 2 ^ 64] :=
    Nat.ModEq.cancel_right_of_coprime (by decide) heq
  have hxy : h1 ^^^ b = h2 ^^^ b := by
    have h3 : (h1 ^^^ b) % 2 ^ 64 = (h2 ^^^ b) % 2 ^ 64 := hmod
    omega
  calc h1 = h1 ^^^ b ^^^ b := (Nat.xor_cancel_right b h1).symm
    _ = h2 ^^^ b ^^^ b := by rw [hxy]
    _ = h2 := Nat.xor_cancel_right b h2

theorem fnvStep_inj_byte (h b1 b2 : Nat) (hh : h < 2 ^ 64) (hb1 : b1 < 2 ^ 64)
    (hb2 : b2 < 2 ^ 64) (heq : fnvStep h b1 = fnvStep h b2) : b1 = b2 := by
  unfold fnvStep at heq
  have hx : h ^^^ b1 < 2 ^ 64 := Nat.xor_lt_two_pow hh hb1
  have hy : h ^^^ b2 < 2 ^ 64 := Nat.xor_lt_two_pow hh hb2
  have hmod : (h ^^^ b1) ≡ (h ^^^ b2) [MOD 2 ^ 64] :=
    Nat.ModEq.cancel_right_of_coprime (by decide) heq
  have hxy : h ^^^ b1 = h ^^^ b2 := by
    have h3 : (h ^^^ b1) % 2 ^ 64 = (h ^^^ b2) % 2 ^ 64 := hmod
    omega
  have h4 := congrArg (fun z => h ^^^ z) hxy
  simpa [← Nat.xor_assoc, Nat.xor_self, Nat.zero_xor] using h4

theorem fnvFold_lt (bs : List Nat) : ∀ h : Nat, h < 2 ^ 64 →
    bs.foldl fnvStep h < 2 ^ 64 := by
  induction bs with
  | nil => intro h hh; simpa using hh
  | cons b rest ih =>
    intro h hh
    simpa using ih (fnvStep h b) (fnvStep_lt h b)

theorem fnvFold_inj (bs : List Nat) (hbs : ∀ b ∈ bs, b < 2 ^ 64) :
    ∀ h1 h2 : Nat, h1 < 2 ^ 64 → h2 < 2 ^ 64 →
    bs.foldl fnvStep h1 = bs.foldl fnvStep h2 → h1 = h2 := by
  induction bs with
  | nil => intro h1 h2 _ _ heq; simpa using heq
  | cons b rest ih =>
    intro h1 h2 hl1 hl2 heq
    simp only [List.foldl_cons] at heq
    have hb : b < 2 ^ 64 := hbs b (List.mem_cons_self b rest)
    have hrest : ∀ x ∈ rest, x < 2 ^ 64 := fun x hx => hbs x (List.mem_cons_of_mem b hx)
    have hstep := ih hrest (fnvStep h1 b) (fnvStep h2 b) (fnvStep_lt h1 b) (fnvStep_lt h2 b) heq
    exact fnvStep_inj b h1 h2 hb hl1 hl2 hstep

/-- Two byte streams agreeing everywhere except at one position hash to
distinct FNV-1a values: each step is a bijection of the 64-bit state. -/
theorem fnv64a_single_diff (pre suf : List Nat) (b1 b2 : Nat)
    (hb1 : b1 < 2 ^ 64) (hb2 : b2 < 2 ^ 64) (hsuf : ∀ b ∈ suf, b < 2 ^ 64)
    (hne : b1 ≠ b2) :
    fnv64a (pre ++ b1 :: suf) ≠ fnv64a (pre ++ b2 :: suf) := by
  intro heq
  unfold fnv64a at heq
  rw [List.foldl_append, List.foldl_append] at heq
  simp only [List.foldl_cons] at heq
  have h0 : List.foldl fnvStep fnvOffset pre < 2 ^ 64 :=
    fnvFold_lt pre fnvOffset (by decide)
  have hstep := fnvFold_inj suf hsuf _ _
    (fnvStep_lt _ b1) (fnvStep_lt _ b2) heq
  exact hne (fnvStep_inj_byte _ b1 b2 h0 hb1 hb2 hstep)

theorem mem_strBytes_lt (s : String) : ∀ b ∈ strBytes s, b < 2 ^ 64 := by
  intro b hb
  simp only [strBytes, List.mem_map] at hb
  obtain ⟨c, _, rfl⟩ := hb
  have h2 : c.toNat = c.val.toNat := rfl
  have := c.val.toNat_lt
  omega

theorem mem_natDecAux_lt : ∀ (fuel n : Nat), ∀ d ∈ natDecAux fuel n, d < 10 := by
  intro fuel
  induction fuel with
  | zero => intro n d hd; simp [natDecAux] at hd
  | succ fuel ih =>
    intro n d hd
    unfold natDecAux at hd
    split_ifs at hd with h
    · simp at hd
      omega
    · rcases List.mem_append.mp hd with h1 | h2
      · exact ih (n / 10) d h1
      · simp at h2
        subst h2
        exact Nat.mod_lt n (by omega)

theorem mem_decimalBytes_lt (n : Nat) : ∀ b ∈ decimalBytes n, b < 2 ^ 64 := by
  intro b hb
  simp only [decimalBytes, List.mem_map] at hb
  obtain ⟨d, hd, rfl⟩ := hb
  have := mem_natDecAux_lt (n + 1) n d hd
  omega

theorem mem_optPtrBytes_lt (o : Option Nat) : ∀ b ∈ optPtrBytes o, b < 2 ^ 64 := by
  intro b hb
  cases o with
  | none => simp [optPtrBytes] at hb
  | some p => exact mem_decimalBytes_lt p b hb

theorem mem_fingerprintTail_lt (c : FingerprintConfig) :
    ∀ b ∈ fingerprintTail c, b < 2 ^ 64 := by
  intro b hb
  unfold fingerprintTail at hb
  simp only [List.mem_append] at hb
  rcases hb with ((((((((hb | hb) | hb) | hb) | hb) | hb) | hb) | hb) | hb)
  · exact mem_strBytes_lt _ b hb
  · exact mem_strBytes_lt _ b hb
  · exact mem_optPtrBytes_lt _ b hb
  · exact mem_optPtrBytes_lt _ b hb
  · exact mem_optPtrBytes_lt _ b hb
  · exact mem_optPtrBytes_lt _ b hb
  · exact mem_optPtrBytes_lt _ b hb
  · exact mem_optPtrBytes_lt _ b hb
  · cases hcm : c.CommentMapLenPtr with
    | none => rw [hcm] at hb; simp at hb
    | some p =>
      rw [hcm] at hb
      rcases List.mem_append.mp hb with h1 | h2
      · exact mem_decimalBytes_lt _ b h1
      · exact mem_decimalBytes_lt _ b h2

theorem boolBit_lt (x : Bool) : (if x then (1 : Nat) else 0) < 2 ^ 64 := by
  cases x <;> decide

theorem boolBit_ne (x : Bool) : (if !x then (1 : Nat) else 0) ≠ (if x then (1 : Nat) else 0) := by
  cases x <;> decide

theorem mem_bit_cons_lt (x : Bool) (L : List Nat) (hL : ∀ b ∈ L, b < 2 ^ 64) :
    ∀ b ∈ (if x then (1 : Nat) else 0) :: L, b < 2 ^ 64 := by
  intro b hb
  rcases List.mem_cons.mp hb with h | h
  · subst h; exact boolBit_lt x
  · exact hL b h

/-- C6 counterexample: the fingerprint writes hook addresses and option
strings without any slot separators, so two configurations that differ in
hook identity (a `Lookup` hook at address 1 and nil `Mapper` versus nil
`Lookup` and a `Mapper` hook at address 1) produce the same cache key; so do
a name tag "ab" with empty base ID versus a name tag "a" with base ID "b". -/
theorem C6_fingerprint_collision_counterexample :
    cacheFingerprint fpLookupOnly = cacheFingerprint fpMapperOnly ∧
    fpLookupOnly ≠ fpMapperOnly ∧
    fpLookupOnly.LookupPtr = some 1 ∧ fpMapperOnly.LookupPtr = none ∧
    cacheFingerprint fpTagAB = cacheFingerprint fpTagA_BaseB ∧
    fpTagAB ≠ fpTagA_BaseB :=
  ⟨rfl, by decide, rfl, rfl, rfl, by decide⟩

/-- C6 (amended): the fingerprint separates configurations differing in any
single boolean toggle (each FNV-1a step is a bijection of the state, so byte
streams differing in exactly one position collide never); hook and string
differences, by contrast, are not universally separated because the bytes
carry no slot boundaries. -/
theorem C6_fingerprint_toggle_distinct :
    (∀ c : FingerprintConfig,
      cacheFingerprint { c with Anonymous := !c.Anonymous } ≠ cacheFingerprint c)
    ∧ (∀ c : FingerprintConfig,
      cacheFingerprint { c with AssignAnchor := !c.AssignAnchor } ≠ cacheFingerprint c)
    ∧ (∀ c : FingerprintConfig,
      cacheFingerprint { c with AllowAdditionalProperties := !c.AllowAdditionalProperties } ≠
        cacheFingerprint c)
    ∧ (∀ c : FingerprintConfig,
      cacheFingerprint { c with RequiredFromJSONSchemaTags := !c.RequiredFromJSONSchemaTags } ≠
        cacheFingerprint c)
    ∧ (∀ c : FingerprintConfig,
      cacheFingerprint { c with DoNotReference := !c.DoNotReference } ≠ cacheFingerprint c)
    ∧ (∀ c : FingerprintConfig,
      cacheFingerprint { c with ExpandedStruct := !c.ExpandedStruct } ≠ cacheFingerprint c) := by
  refine ⟨?_, ?_, ?_, ?_, ?_, ?_⟩
  · intro c
    have hL : cacheFingerprint { c with Anonymous := !c.Anonymous } =
        fnv64a (([] : List Nat) ++
        (if !c.Anonymous then 1 else 0) ::
        ((if c.AssignAnchor then 1 else 0) :: (if c.AllowAdditionalProperties then 1 else 0) :: (if c.RequiredFromJSONSchemaTags then 1 else 0) :: (if c.DoNotReference then 1 else 0) :: (if c.ExpandedStruct then 1 else 0) :: fingerprintTail c)) := rfl
    have hR : cacheFingerprint c =
        fnv64a (([] : List Nat) ++
        (if c.Anonymous then 1 else 0) ::
        ((if c.AssignAnchor then 1 else 0) :: (if c.AllowAdditionalProperties then 1 else 0) :: (if c.RequiredFromJSONSchemaTags then 1 else 0) :: (if c.DoNotReference then 1 else 0) :: (if c.ExpandedStruct then 1 else 0) :: fingerprintTail c)) := rfl
    rw [hL, hR]
    exact fnv64a_single_diff _ _ _ _ (boolBit_lt _) (boolBit_lt _)
      (mem_bit_cons_lt _ _ (mem_bit_cons_lt _ _ (mem_bit_cons_lt _ _ (mem_bit_cons_lt _ _ (mem_bit_cons_lt _ _ (mem_fingerprintTail_lt c)))))) (boolBit_ne _)
  · intro c
    have hL : cacheFingerprint { c with AssignAnchor := !c.AssignAnchor } =
        fnv64a (([(if c.Anonymous then 1 else 0)] : List Nat) ++
        (if !c.AssignAnchor then 1 else 0) ::
        ((if c.AllowAdditionalProperties then 1 else 0) :: (if c.RequiredFromJSONSchemaTags then 1 else 0) :: (if c.DoNotReference then 1 else 0) :: (if c.ExpandedStruct then 1 else 0) :: fingerprintTail c)) := rfl
    have hR : cacheFingerprint c =
        fnv64a (([(if c.Anonymous then 1 else 0)] : List Nat) ++
        (if c.AssignAnchor then 1 else 0) ::
        ((if c.AllowAdditionalProperties then 1 else 0) :: (if c.RequiredFromJSONSchemaTags then 1 else 0) :: (if c.DoNotReference then 1 else 0) :: (if c.ExpandedStruct then 1 else 0) :: fingerprintTail c)) := rfl
    rw [hL, hR]
    exact fnv64a_single_diff _ _ _ _ (boolBit_lt _) (boolBit_lt _)
      (mem_bit_cons_lt _ _ (mem_bit_cons_lt _ _ (mem_bit_cons_lt _ _ (mem_bit_cons_lt _ _ (mem_fingerprintTail_lt c))))) (boolBit_ne _)
  · intro c
    have hL : cacheFingerprint { c with AllowAdditionalProperties := !c.AllowAdditionalProperties } =
        fnv64a (([(if c.Anonymous then 1 else 0), (if c.AssignAnchor then 1 else 0)] : List Nat) ++
        (if !c.AllowAdditionalProperties then 1 else 0) ::
        ((if c.RequiredFromJSONSchemaTags then 1 else 0) :: (if c.DoNotReference then 1 else 0) :: (if c.ExpandedStruct then 1 else 0) :: fingerprintTail c)) := rfl
    have hR : cacheFingerprint c =
        fnv64a (([(if c.Anonymous then 1 else 0), (if c.AssignAnchor then 1 else 0)] : List Nat) ++
        (if c.AllowAdditionalProperties then 1 else 0) ::
        ((if c.RequiredFromJSONSchemaTags then 1 else 0) :: (if c.DoNotReference then 1 else 0) :: (if c.ExpandedStruct then 1 else 0) :: fingerprintTail c)) := rfl
    rw [hL, hR]
    exact fnv64a_single_diff _ _ _ _ (boolBit_lt _) (boolBit_lt _)
      (mem_bit_cons_lt _ _ (mem_bit_cons_lt _ _ (mem_bit_cons_lt _ _ (mem_fingerprintTail_lt c)))) (boolBit_ne _)
  · intro c
    have hL : cacheFingerprint { c with RequiredFromJSONSchemaTags := !c.RequiredFromJSONSchemaTags } =
        fnv64a (([(if c.Anonymous then 1 else 0), (if c.AssignAnchor then 1 else 0), (if c.AllowAdditionalProperties then 1 else 0)] : List Nat) ++
        (if !c.RequiredFromJSONSchemaTags then 1 else 0) ::
        ((if c.DoNotReference then 1 else 0) :: (if c.ExpandedStruct then 1 else 0) :: fingerprintTail c)) := rfl
    have hR : cacheFingerprint c =
        fnv64a (([(if c.Anonymous then 1 else 0), (if c.AssignAnchor then 1 else 0), (if c.AllowAdditionalProperties then 1 else 0)] : List Nat) ++
        (if c.RequiredFromJSONSchemaTags then 1 else 0) ::
        ((if c.DoNotReference then 1 else 0) :: (if c.ExpandedStruct then 1 else 0) :: fingerprintTail c)) := rfl
    rw [hL, hR]
    exact fnv64a_single_diff _ _ _ _ (boolBit_lt _) (boolBit_lt _)
      (mem_bit_cons_lt _ _ (mem_bit_cons_lt _ _ (mem_fingerprintTail_lt c))) (boolBit_ne _)
  · intro c
    have hL : cacheFingerprint { c with DoNotReference := !c.DoNotReference } =
        fnv64a (([(if c.Anonymous then 1 else 0), (if c.AssignAnchor then 1 else 0), (if c.AllowAdditionalProperties then 1 else 0), (if c.RequiredFromJSONSchemaTags then 1 else 0)] : List Nat) ++
        (if !c.DoNotReference then 1 else 0) ::
        ((if c.ExpandedStruct then 1 else 0) :: fingerprintTail c)) := rfl
    have hR : cacheFingerprint c =
        fnv64a (([(if c.Anonymous then 1 else 0), (if c.AssignAnchor then 1 else 0), (if c.AllowAdditionalProperties then 1 else 0), (if c.RequiredFromJSONSchemaTags then 1 else 0)] : List Nat) ++
        (if c.DoNotReference then 1 else 0) ::
        ((if c.ExpandedStruct then 1 else 0) :: fingerprintTail c)) := rfl
    rw [hL, hR]
    exact fnv64a_single_diff _ _ _ _ (boolBit_lt _) (boolBit_lt _)
      (mem_bit_cons_lt _ _ (mem_fingerprintTail_lt c)) (boolBit_ne _)
  · intro c
    have hL : cacheFingerprint { c with ExpandedStruct := !c.ExpandedStruct } =
        fnv64a (([(if c.Anonymous then 1 else 0), (if c.AssignAnchor then 1 else 0), (if c.AllowAdditionalProperties then 1 else 0), (if c.RequiredFromJSONSchemaTags then 1 else 0), (if c.DoNotReference then 1 else 0)] : List Nat) ++
        (if !c.ExpandedStruct then 1 else 0) ::
        (fingerprintTail c)) := rfl
    have hR : cacheFingerprint c =
        fnv64a (([(if c.Anonymous then 1 else 0), (if c.AssignAnchor then 1 else 0), (if c.AllowAdditionalProperties then 1 else 0), (if c.RequiredFromJSONSchemaTags then 1 else 0), (if c.DoNotReference then 1 else 0)] : List Nat) ++
        (if c.ExpandedStruct then 1 else 0) ::
        (fingerprintTail c)) := rfl
    rw [hL, hR]
    exact fnv64a_single_diff _ _ _ _ (boolBit_lt _) (boolBit_lt _)
      (mem_fingerprintTail_lt c) (boolBit_ne _)

/-- Witness for C6: two concrete configurations differing only in the
`DoNotReference` toggle have distinct fingerprints. -/
theorem C6_fingerprint_toggle_distinct_witness :
    cacheFingerprint { fpLookupOnly with DoNotReference := !fpLookupOnly.DoNotReference } ≠
      cacheFingerprint fpLookupOnly :=
  C6_fingerprint_toggle_distinct.2.2.2.2.1 fpLookupOnly

/-! ## C7: cache bound, LRU eviction, promote-on-hit, first writer wins -/

theorem evictIfNeeded_order (max : Nat) (hmax : 0 < max) :
    ∀ (order : List SchemaCacheKey) (m : List (SchemaCacheKey × Schema)),
    (evictIfNeeded max order m).1 = order.drop (order.length - max) := by
  intro order
  induction order with
  | nil => intro m; simp [evictIfNeeded]
  | cons k rest ih =>
    intro m
    unfold evictIfNeeded
    by_cases h : max < rest.length + 1
    · rw [if_pos ⟨hmax, h⟩, ih]
      have hlen : (k :: rest).length - max = (rest.length - max) + 1 := by
        simp only [List.length_cons]
        omega
      rw [hlen, List.drop_succ_cons]
    · rw [if_neg (fun hc => h hc.2)]
      have hlen : (k :: rest).length - max = 0 := by
        simp only [List.length_cons]
        omega
      rw [hlen, List.drop_zero]

theorem promoteOrder_erase (key : SchemaCacheKey) :
    ∀ order : List SchemaCacheKey, key ∈ order →
    promoteOrder key order = order.erase key ++ [key] := by
  intro order
  induction order with
  | nil => intro h; simp at h
  | cons k rest ih =>
    intro hmem
    unfold promoteOrder
    by_cases hk : k = key
    · subst hk
      rw [if_pos rfl, List.erase_cons_head]
    · rw [if_neg hk]
      have hmem' : key ∈ rest := by
        rcases List.mem_cons.mp hmem with h | h
        · exact absurd h.symm hk
        · exact h
      rw [ih hmem']
      simp [List.erase_cons, hk]

/-- C7: with a positive entry bound, a store of a fresh key leaves the
recency order equal to the old order plus the new key with exactly the
least-recently-used front entries dropped to fit the bound, so the cache
holds at most `max` entries; storing under an existing key changes nothing
(first writer wins); and a cache hit promotes its key to the
most-recently-used end of the order. -/
theorem C7_cache_lru :
    (∀ (max : Nat) (st : SchemaCacheState) (key : SchemaCacheKey) (s : Schema),
      0 < max → cacheLoad st.entries key = none →
      (storeSchemaInCache max st key s).order =
        (st.order ++ [key]).drop (st.order.length + 1 - max) ∧
      (storeSchemaInCache max st key s).order.length ≤ max)
    ∧ (∀ (max : Nat) (st : SchemaCacheState) (key : SchemaCacheKey) (s : Schema),
      (cacheLoad st.entries key).isSome = true → storeSchemaInCache max st key s = st)
    ∧ (∀ (max : Nat) (st : SchemaCacheState) (key : SchemaCacheKey),
      0 < max → (cacheLoad st.entries key).isSome = true → key ∈ st.order →
      (loadSchemaFromCache max st key).2.order = st.order.erase key ++ [key]) := by
  refine ⟨?_, ?_, ?_⟩
  · intro max st key s hmax hmiss
    have horder : (storeSchemaInCache max st key s).order =
        (st.order ++ [key]).drop ((st.order ++ [key]).length - max) := by
      unfold storeSchemaInCache
      rw [hmiss]
      simp only [Option.isSome_none, Bool.false_eq_true, if_false, if_pos hmax]
      exact evictIfNeeded_order max hmax _ _
    have hlen : (st.order ++ [key]).length = st.order.length + 1 := by
      simp
    constructor
    · rw [horder, hlen]
    · rw [horder, List.length_drop]
      omega
  · intro max st key s hsome
    unfold storeSchemaInCache
    rw [if_pos hsome]
  · intro max st key hmax hsome hmem
    cases hload : cacheLoad st.entries key with
    | none => rw [hload] at hsome; simp at hsome
    | some v =>
      unfold loadSchemaFromCache
      rw [hload]
      unfold promoteCacheKey
      rw [if_neg (by omega)]
      exact promoteOrder_erase key st.order hmem

/-- Witness for C7: storing a fresh key in a one-entry cache under bound 2
keeps both keys in order, and a hit on the resident key promotes it. -/
theorem C7_cache_lru_witness :
    ((storeSchemaInCache 2 cacheStateOne cacheKeyB emptySchema).order =
      (cacheStateOne.order ++ [cacheKeyB]).drop (cacheStateOne.order.length + 1 - 2) ∧
    (storeSchemaInCache 2 cacheStateOne cacheKeyB emptySchema).order.length ≤ 2) ∧
    (loadSchemaFromCache 2 cacheStateOne cacheKeyA).2.order =
      cacheStateOne.order.erase cacheKeyA ++ [cacheKeyA] :=
  ⟨C7_cache_lru.1 2 cacheStateOne cacheKeyB emptySchema (by decide) rfl,
   C7_cache_lru.2.2 2 cacheStateOne cacheKeyA (by decide) rfl (by decide)⟩

/-! ## C3: cloneSchema deep-copy isolation and the shared-Extras exception -/

theorem storeExtends_refl (σ : CloneStore) : StoreExtends σ σ :=
  ⟨⟨[], by simp⟩, ⟨[], by simp⟩⟩

theorem storeExtends_trans (σ3 σ2 σ1 : CloneStore)
    (h32 : StoreExtends σ3 σ2) (h21 : StoreExtends σ2 σ1) : StoreExtends σ3 σ1 := by
  obtain ⟨⟨a, ha⟩, ⟨b, hb⟩⟩ := h32
  obtain ⟨⟨c, hc⟩, ⟨d, hd⟩⟩ := h21
  exact ⟨⟨c ++ a, by rw [ha, hc, List.append_assoc]⟩,
         ⟨d ++ b, by rw [hb, hd, List.append_assoc]⟩⟩

theorem storeExtends_nodes_len (σB σ : CloneStore) (h : StoreExtends σB σ) :
    σ.nodes.length ≤ σB.nodes.length := by
  obtain ⟨⟨a, ha⟩, _⟩ := h
  simp [ha]

theorem storeExtends_slices_len (σB σ : CloneStore) (h : StoreExtends σB σ) :
    σ.slices.length ≤ σB.slices.length := by
  obtain ⟨_, ⟨b, hb⟩⟩ := h
  simp [hb]

theorem storeExtends_nodes_agree (σB σ : CloneStore) (h : StoreExtends σB σ)
    (c : Nat) (hc : c < σ.nodes.length) : σB.nodes[c]? = σ.nodes[c]? := by
  obtain ⟨⟨a, ha⟩, _⟩ := h
  rw [ha, List.getElem?_append_left hc]

theorem storeExtends_getD (σB σ : CloneStore) (h : StoreExtends σB σ)
    (r : Nat) (hr : r < σ.slices.length) :
    σB.slices.getD r [] = σ.slices.getD r [] := by
  obtain ⟨_, ⟨b, hb⟩⟩ := h
  rw [hb, List.getD_append _ _ _ _ hr]

theorem cloneReq_nodes (σ : CloneStore) (o : Option Nat) :
    (cloneReq σ o).1.nodes = σ.nodes := by
  cases o <;> rfl

theorem cloneReq_extends (σ : CloneStore) (o : Option Nat) :
    StoreExtends (cloneReq σ o).1 σ := by
  cases o with
  | none => exact storeExtends_refl σ
  | some r => exact ⟨⟨[], by simp [cloneReq]⟩, ⟨[σ.slices.getD r []], rfl⟩⟩

/-- Shape and freshness facts of a successful clone: the store only grows,
result roots are fresh, and every appended node points only at fresh
children and fresh required arrays. -/
theorem cloneList_spec : ∀ (fuel : Nat) (σ : CloneStore) (l : List (String × Nat))
    (σ' : CloneStore) (l' : List (String × Nat)),
    cloneList fuel σ l = some (σ', l') →
    StoreExtends σ' σ ∧
    (∀ p ∈ l', σ.nodes.length ≤ p.2 ∧ p.2 < σ'.nodes.length) ∧
    (∃ Δn, σ'.nodes = σ.nodes ++ Δn ∧
      ∀ nd ∈ Δn, (∀ p ∈ nd.children, σ.nodes.length ≤ p.2 ∧ p.2 < σ'.nodes.length) ∧
        (∀ r, nd.required = some r → σ.slices.length ≤ r ∧ r < σ'.slices.length)) := by
  intro fuel
  induction fuel with
  | zero => intro σ l σ' l' h; simp [cloneList] at h
  | succ fuel ih =>
    intro σ l σ' l' h
    match l with
    | [] =>
      simp only [cloneList, Option.some.injEq, Prod.mk.injEq] at h
      obtain ⟨rfl, rfl⟩ := h
      exact ⟨storeExtends_refl σ, by simp, ⟨[], by simp⟩⟩
    | (tag, a) :: rest =>
      rw [cloneList] at h
      cases hget : σ.nodes[a]? with
      | none => rw [hget] at h; exact absurd h (by simp)
      | some nd =>
        rw [hget] at h
        simp only [] at h
        cases hch : cloneList fuel σ nd.children with
        | none => rw [hch] at h; exact absurd h (by simp)
        | some p1 =>
          obtain ⟨σ1, ch1⟩ := p1
          rw [hch] at h
          simp only [] at h
          cases hcr : cloneReq σ1 nd.required with
          | mk σ2 req1 =>
            rw [hcr] at h
            simp only [] at h
            cases hrest : cloneList fuel
                { nodes := σ2.nodes ++ [⟨nd.scalars, ch1, req1, nd.extras⟩],
                  slices := σ2.slices } rest with
            | none => rw [hrest] at h; exact absurd h (by simp)
            | some p4 =>
              obtain ⟨σ4, rest1⟩ := p4
              rw [hrest] at h
              simp only [Option.some.injEq, Prod.mk.injEq] at h
              obtain ⟨rfl, rfl⟩ := h
              obtain ⟨hext1, hfr1, Δ1, hΔ1, hΔ1nd⟩ := ih σ nd.children σ1 ch1 hch
              obtain ⟨hext4, hfr4, Δ4, hΔ4, hΔ4nd⟩ := ih _ rest σ4 rest1 hrest
              have hσ2n : σ2.nodes = σ1.nodes := by
                have := cloneReq_nodes σ1 nd.required
                rw [hcr] at this
                exact this
              have hext2 : StoreExtends σ2 σ1 := by
                have := cloneReq_extends σ1 nd.required
                rw [hcr] at this
                exact this
              have hext3 : StoreExtends
                  { nodes := σ2.nodes ++ [⟨nd.scalars, ch1, req1, nd.extras⟩],
                    slices := σ2.slices } σ2 :=
                ⟨⟨_, rfl⟩, ⟨[], by simp⟩⟩
              have hext21 : StoreExtends σ2 σ1 := hext2
              have hext31 : StoreExtends
                  { nodes := σ2.nodes ++ [⟨nd.scalars, ch1, req1, nd.extras⟩],
                    slices := σ2.slices } σ1 := storeExtends_trans _ _ _ hext3 hext21
              have hext41 : StoreExtends σ4 σ1 := storeExtends_trans _ _ _ hext4 hext31
              have hextσ : StoreExtends σ4 σ :=
                storeExtends_trans _ _ _ hext41 hext1
              refine ⟨hextσ, ?_, ?_⟩
              · intro p hp
                rcases List.mem_cons.mp hp with hp | hp
                · subst hp
                  constructor
                  · have h1 := storeExtends_nodes_len _ _ hext1
                    simp only [hσ2n]
                    omega
                  · have h4 := storeExtends_nodes_len _ _ hext4
                    simp only [List.length_append, List.length_cons] at h4
                    simp only [hσ2n] at h4 ⊢
                    omega
                · have := hfr4 p hp
                  have h1 := storeExtends_nodes_len _ _ hext1
                  simp only [List.length_append, List.length_cons, hσ2n] at this
                  omega
              · have hL1 : σ.nodes.length ≤ σ1.nodes.length := storeExtends_nodes_len _ _ hext1
                have hL4 : σ2.nodes.length + 1 ≤ σ4.nodes.length := by
                  have := storeExtends_nodes_len _ _ hext4
                  simpa using this
                have hS1 : σ.slices.length ≤ σ1.slices.length := storeExtends_slices_len _ _ hext1
                have hS2 : σ1.slices.length ≤ σ2.slices.length := storeExtends_slices_len _ _ hext2
                have hS4 : σ2.slices.length ≤ σ4.slices.length := by
                  have := storeExtends_slices_len _ _ hext4
                  simpa using this
                refine ⟨Δ1 ++ ⟨nd.scalars, ch1, req1, nd.extras⟩ :: Δ4, ?_, ?_⟩
                · have h4 : σ4.nodes = (σ2.nodes ++ [⟨nd.scalars, ch1, req1, nd.extras⟩]) ++ Δ4 := hΔ4
                  rw [h4, hσ2n, hΔ1]
                  simp
                · intro nd' hnd'
                  rcases List.mem_append.mp hnd' with h1 | h14
                  · obtain ⟨hc1, hr1⟩ := hΔ1nd nd' h1
                    constructor
                    · intro p hp
                      have := hc1 p hp
                      constructor
                      · exact this.1
                      · have := this.2
                        simp only [hσ2n] at hL4
                        omega
                    · intro r hr
                      have := hr1 r hr
                      omega
                  · rcases List.mem_cons.mp h14 with h0 | h4
                    · subst h0
                      constructor
                      · intro p hp
                        have := hfr1 p hp
                        simp only [hσ2n] at hL4
                        exact ⟨this.1, by omega⟩
                      · intro r hr
                        cases hreq : nd.required with
                        | none =>
                          rw [hreq] at hcr
                          simp only [cloneReq] at hcr
                          obtain ⟨rfl, rfl⟩ := Prod.mk.injEq .. ▸ hcr
                          simp at hr
                        | some r0 =>
                          rw [hreq] at hcr
                          simp only [cloneReq] at hcr
                          have hσ2s : σ2.slices = σ1.slices ++ [σ1.slices.getD r0 []] :=
                            (congrArg CloneStore.slices (congrArg Prod.fst hcr)).symm ▸ rfl
                          have hreq1 : req1 = some σ1.slices.length := by
                            have := congrArg Prod.snd hcr
                            simpa using this.symm
                          rw [hreq1] at hr
                          obtain rfl := Option.some.injEq .. ▸ hr
                          have hlen2 : σ2.slices.length = σ1.slices.length + 1 := by
                            rw [hσ2s]; simp
                          exact ⟨hS1, by omega⟩
                    · obtain ⟨hc4, hr4⟩ := hΔ4nd nd' h4
                      constructor
                      · intro p hp
                        have := hc4 p hp
                        simp only [List.length_append, List.length_cons, hσ2n] at this
                        omega
                      · intro r hr
                        have := hr4 r hr
                        simp only [] at this
                        omega

theorem extrasClosed_mono (σ σB : CloneStore) (e : Option (List (String × EVal)))
    (hs : σ.slices.length ≤ σB.slices.length) (h : ExtrasClosed σ e) :
    ExtrasClosed σB e := by
  cases e with
  | none => trivial
  | some lst =>
    intro p hp
    have h2 := h p hp
    cases hv : p.2 with
    | scalar n => trivial
    | strsRef r =>
      rw [hv] at h2
      exact lt_of_lt_of_le h2 hs

theorem nodeClosed_mono (σ σB : CloneStore) (nd : HNode)
    (hn : σ.nodes.length ≤ σB.nodes.length) (hs : σ.slices.length ≤ σB.slices.length)
    (h : NodeClosed σ nd) : NodeClosed σB nd := by
  obtain ⟨hc, hr, he⟩ := h
  refine ⟨fun p hp => lt_of_lt_of_le (hc p hp) hn, ?_, extrasClosed_mono σ σB _ hs he⟩
  cases hq : nd.required with
  | none => trivial
  | some r =>
    rw [hq] at hr
    exact lt_of_lt_of_le hr hs

theorem closed_step (σ σ1 σ2 : CloneStore) (nd : HNode) (ch1 : List (String × Nat))
    (req1 : Option Nat)
    (hcl1 : NodesClosed σ1)
    (hfr1 : ∀ p ∈ ch1, σ.nodes.length ≤ p.2 ∧ p.2 < σ1.nodes.length)
    (hext1 : StoreExtends σ1 σ)
    (hcr : cloneReq σ1 nd.required = (σ2, req1))
    (hσ2n : σ2.nodes = σ1.nodes)
    (hexc : ExtrasClosed σ nd.extras) :
    NodesClosed { nodes := σ2.nodes ++ [⟨nd.scalars, ch1, req1, nd.extras⟩],
                  slices := σ2.slices } := by
  have hext2 : StoreExtends σ2 σ1 := by
    have := cloneReq_extends σ1 nd.required
    rw [hcr] at this
    exact this
  have hS2 : σ1.slices.length ≤ σ2.slices.length := storeExtends_slices_len _ _ hext2
  have hS1 : σ.slices.length ≤ σ1.slices.length := storeExtends_slices_len _ _ hext1
  intro nd' hnd'
  simp only [List.mem_append, List.mem_singleton] at hnd'
  rcases hnd' with hold | hnew
  · rw [hσ2n] at hold
    have := hcl1 nd' hold
    refine nodeClosed_mono σ1 _ nd' ?_ ?_ this
    · simp [hσ2n]
    · simpa using hS2
  · subst hnew
    refine ⟨?_, ?_, ?_⟩
    · intro p hp
      have := (hfr1 p hp).2
      simp only [List.length_append, List.length_cons, hσ2n]
      omega
    · cases hq : nd.required with
      | none =>
        rw [hq] at hcr
        simp only [cloneReq] at hcr
        have : req1 = none := by
          have := congrArg Prod.snd hcr
          simpa using this.symm
        show ReqClosed _ req1
        rw [this]
        trivial
      | some r =>
        rw [hq] at hcr
        simp only [cloneReq] at hcr
        have hreq1 : req1 = some σ1.slices.length := by
          have := congrArg Prod.snd hcr
          simpa using this.symm
        have hσ2s : σ2.slices = σ1.slices ++ [σ1.slices.getD r []] := by
          have := congrArg (fun q => CloneStore.slices (Prod.fst q)) hcr
          simpa using this.symm
        show ReqClosed _ req1
        rw [hreq1]
        show σ1.slices.length < σ2.slices.length
        rw [hσ2s]
        simp
    · exact extrasClosed_mono σ _ nd.extras (by simpa using le_trans hS1 hS2) hexc

theorem cloneList_closed : ∀ (fuel : Nat) (σ : CloneStore) (l : List (String × Nat))
    (σ' : CloneStore) (l' : List (String × Nat)),
    NodesClosed σ → cloneList fuel σ l = some (σ', l') → NodesClosed σ' := by
  intro fuel
  induction fuel with
  | zero => intro σ l σ' l' _ h; simp [cloneList] at h
  | succ fuel ih =>
    intro σ l σ' l' hcl h
    match l with
    | [] =>
      simp only [cloneList, Option.some.injEq, Prod.mk.injEq] at h
      obtain ⟨rfl, rfl⟩ := h
      exact hcl
    | (tag, a) :: rest =>
      rw [cloneList] at h
      cases hget : σ.nodes[a]? with
      | none => rw [hget] at h; exact absurd h (by simp)
      | some nd =>
        rw [hget] at h
        simp only [] at h
        cases hch : cloneList fuel σ nd.children with
        | none => rw [hch] at h; exact absurd h (by simp)
        | some p1 =>
          obtain ⟨σ1, ch1⟩ := p1
          rw [hch] at h
          simp only [] at h
          cases hcr : cloneReq σ1 nd.required with
          | mk σ2 req1 =>
            rw [hcr] at h
            simp only [] at h
            cases hrest : cloneList fuel
                { nodes := σ2.nodes ++ [⟨nd.scalars, ch1, req1, nd.extras⟩],
                  slices := σ2.slices } rest with
            | none => rw [hrest] at h; exact absurd h (by simp)
            | some p4 =>
              obtain ⟨σ4, rest1⟩ := p4
              rw [hrest] at h
              simp only [Option.some.injEq, Prod.mk.injEq] at h
              obtain ⟨rfl, rfl⟩ := h
              have hcl1 : NodesClosed σ1 := ih σ nd.children σ1 ch1 hcl hch
              obtain ⟨hext1, hfr1, _⟩ := cloneList_spec fuel σ nd.children σ1 ch1 hch
              have hσ2n : σ2.nodes = σ1.nodes := by
                have := cloneReq_nodes σ1 nd.required
                rw [hcr] at this
                exact this
              have hndmem : nd ∈ σ.nodes := List.getElem?_mem hget
              have hexc : ExtrasClosed σ nd.extras := (hcl nd hndmem).2.2
              have hcl3 := closed_step σ σ1 σ2 nd ch1 req1 hcl1 hfr1 hext1 hcr hσ2n hexc
              exact ih _ rest σ4 rest1 hcl3 hrest

theorem readExtras_stable (σ σB : CloneStore) (e : Option (List (String × EVal)))
    (he : ExtrasClosed σ e)
    (hs : ∀ r, r < σ.slices.length → σB.slices.getD r [] = σ.slices.getD r []) :
    readExtras σB e = readExtras σ e := by
  cases e with
  | none => rfl
  | some lst =>
    simp only [readExtras, Option.map]
    congr 1
    apply List.map_congr_left
    intro p hp
    have h2 := he p hp
    cases hv : p.2 with
    | scalar n => simp [readEVal]
    | strsRef r =>
      rw [hv] at h2
      simp only [readEVal]
      rw [hs r h2]

theorem readList_stable : ∀ (F : Nat) (σ σB : CloneStore) (l : List (String × Nat)),
    NodesClosed σ →
    (∀ c, c < σ.nodes.length → σB.nodes[c]? = σ.nodes[c]?) →
    (∀ r, r < σ.slices.length → σB.slices.getD r [] = σ.slices.getD r []) →
    (∀ p ∈ l, p.2 < σ.nodes.length) →
    readList F σB l = readList F σ l := by
  intro F
  induction F with
  | zero => intros; rfl
  | succ F ih =>
    intro σ σB l hcl hn hs hl
    match l with
    | [] => rfl
    | (tag, a) :: rest =>
      have ha := hl (tag, a) (List.mem_cons_self _ _)
      simp only [readList]
      cases hget : σ.nodes[a]? with
      | none =>
        have h2 := List.getElem?_eq_getElem ha
        rw [hget] at h2
        exact absurd h2 (by simp)
      | some nd =>
        have hgB : σB.nodes[a]? = some nd := by rw [hn a ha, hget]
        rw [hgB]
        simp only []
        have hndmem : nd ∈ σ.nodes := List.getElem?_mem hget
        obtain ⟨hchb, hreqc, hexc⟩ := hcl nd hndmem
        have hch := ih σ σB nd.children hcl hn hs (fun p hp => hchb p hp)
        have hrest := ih σ σB rest hcl hn hs (fun p hp => hl p (List.mem_cons_of_mem _ hp))
        rw [hch, hrest]
        have hrq : nd.required.map (fun r => σB.slices.getD r []) =
            nd.required.map (fun r => σ.slices.getD r []) := by
          cases hq : nd.required with
          | none => rfl
          | some r =>
            rw [hq] at hreqc
            have hr2 : r < σ.slices.length := hreqc
            show some (σB.slices.getD r []) = some (σ.slices.getD r [])
            rw [hs r hr2]
        have hex : readExtras σB nd.extras = readExtras σ nd.extras :=
          readExtras_stable σ σB _ hexc hs
        rw [hrq, hex]

theorem getD_concat_length (l : List (List String)) (v : List String) :
    (l ++ [v]).getD l.length [] = v := by
  rw [List.getD_eq_getElem?_getD, List.getElem?_concat_length]
  rfl

/-- A successful clone reads back to the same value as the original, at
every read fuel. -/
theorem cloneList_read : ∀ (fuel : Nat) (σ : CloneStore) (l : List (String × Nat))
    (σ' : CloneStore) (l' : List (String × Nat)),
    NodesClosed σ →
    (∀ p ∈ l, p.2 < σ.nodes.length) →
    cloneList fuel σ l = some (σ', l') →
    ∀ F, readList F σ' l' = readList F σ l := by
  intro fuel
  induction fuel with
  | zero => intro σ l σ' l' _ _ h; simp [cloneList] at h
  | succ fuel ih =>
    intro σ l σ' l' hcl hl h F
    match l with
    | [] =>
      simp only [cloneList, Option.some.injEq, Prod.mk.injEq] at h
      obtain ⟨rfl, rfl⟩ := h
      cases F <;> rfl
    | (tag, a) :: rest =>
      rw [cloneList] at h
      cases hget : σ.nodes[a]? with
      | none => rw [hget] at h; exact absurd h (by simp)
      | some nd =>
        rw [hget] at h
        simp only [] at h
        cases hch : cloneList fuel σ nd.children with
        | none => rw [hch] at h; exact absurd h (by simp)
        | some p1 =>
          obtain ⟨σ1, ch1⟩ := p1
          rw [hch] at h
          simp only [] at h
          cases hcr : cloneReq σ1 nd.required with
          | mk σ2 req1 =>
            rw [hcr] at h
            simp only [] at h
            cases hrest : cloneList fuel
                { nodes := σ2.nodes ++ [⟨nd.scalars, ch1, req1, nd.extras⟩],
                  slices := σ2.slices } rest with
            | none => rw [hrest] at h; exact absurd h (by simp)
            | some p4 =>
              obtain ⟨σ4, rest1⟩ := p4
              rw [hrest] at h
              simp only [Option.some.injEq, Prod.mk.injEq] at h
              obtain ⟨rfl, rfl⟩ := h
              -- facts about the pieces
              have hndmem : nd ∈ σ.nodes := List.getElem?_mem hget
              obtain ⟨hchb, hreqc, hexc⟩ := hcl nd hndmem
              have hcl1 : NodesClosed σ1 := cloneList_closed fuel σ nd.children σ1 ch1 hcl hch
              obtain ⟨hext1, hfr1, _⟩ := cloneList_spec fuel σ nd.children σ1 ch1 hch
              obtain ⟨hext4, hfr4, _⟩ := cloneList_spec fuel _ rest σ4 rest1 hrest
              have hσ2n : σ2.nodes = σ1.nodes := by
                have := cloneReq_nodes σ1 nd.required
                rw [hcr] at this
                exact this
              have hext2 : StoreExtends σ2 σ1 := by
                have := cloneReq_extends σ1 nd.required
                rw [hcr] at this
                exact this
              have hext3 : StoreExtends
                  { nodes := σ2.nodes ++ [⟨nd.scalars, ch1, req1, nd.extras⟩],
                    slices := σ2.slices } σ2 := ⟨⟨_, rfl⟩, ⟨[], by simp⟩⟩
              have hext31 := storeExtends_trans _ _ _ hext3 hext2
              have hext3σ := storeExtends_trans _ _ _ hext31 hext1
              have hext41 := storeExtends_trans _ _ _ hext4 hext31
              have hext4σ := storeExtends_trans _ _ _ hext4 hext3σ
              have hcl3 := closed_step σ σ1 σ2 nd ch1 req1 hcl1 hfr1 hext1 hcr hσ2n hexc
              -- the cloned children read as the original children
              have hreadch : ∀ G, readList G σ1 ch1 = readList G σ nd.children :=
                ih σ nd.children σ1 ch1 hcl (fun p hp => hchb p hp) hch
              have hreadch4 : ∀ G, readList G σ4 ch1 = readList G σ nd.children := by
                intro G
                rw [← hreadch G]
                exact readList_stable G σ1 σ4 ch1 hcl1
                  (fun c hc => storeExtends_nodes_agree _ _ hext41 c hc)
                  (fun r hr => storeExtends_getD _ _ hext41 r hr)
                  (fun p hp => (hfr1 p hp).2)
              -- the cloned rest reads as the original rest
              have hrestlt : ∀ p ∈ rest, p.2 < σ.nodes.length :=
                fun p hp => hl p (List.mem_cons_of_mem _ hp)
              have hreadrest : ∀ G, readList G σ4 rest1 = readList G σ rest := by
                intro G
                have h1 := ih _ rest σ4 rest1 hcl3
                  (fun p hp => lt_of_lt_of_le (hrestlt p hp)
                    (storeExtends_nodes_len _ _ hext3σ)) hrest G
                rw [h1]
                exact readList_stable G σ _ rest hcl
                  (fun c hc => storeExtends_nodes_agree _ _ hext3σ c hc)
                  (fun r hr => storeExtends_getD _ _ hext3σ r hr)
                  hrestlt
              -- the new root is at σ2.nodes.length
              have hroot : σ4.nodes[σ2.nodes.length]? =
                  some ⟨nd.scalars, ch1, req1, nd.extras⟩ := by
                have hlt : σ2.nodes.length <
                    (σ2.nodes ++ [(⟨nd.scalars, ch1, req1, nd.extras⟩ : HNode)]).length := by
                  simp
                have := storeExtends_nodes_agree _ _ hext4 σ2.nodes.length (by simp)
                rw [this]
                show (σ2.nodes ++ [(⟨nd.scalars, ch1, req1, nd.extras⟩ : HNode)])[σ2.nodes.length]? = _
                rw [List.getElem?_concat_length]
              -- required content agrees
              have hrq : req1.map (fun r => σ4.slices.getD r []) =
                  nd.required.map (fun r => σ.slices.getD r []) := by
                cases hq : nd.required with
                | none =>
                  rw [hq] at hcr
                  simp only [cloneReq] at hcr
                  have : req1 = none := by
                    have := congrArg Prod.snd hcr
                    simpa using this.symm
                  rw [this]
                  rfl
                | some r =>
                  rw [hq] at hcr
                  simp only [cloneReq] at hcr
                  have hreq1 : req1 = some σ1.slices.length := by
                    have := congrArg Prod.snd hcr
                    simpa using this.symm
                  have hσ2s : σ2.slices = σ1.slices ++ [σ1.slices.getD r []] := by
                    have := congrArg (fun q => CloneStore.slices (Prod.fst q)) hcr
                    simpa using this.symm
                  rw [hq] at hreqc
                  have hr2 : r < σ.slices.length := hreqc
                  rw [hreq1]
                  show some (σ4.slices.getD σ1.slices.length []) =
                    some (σ.slices.getD r [])
                  have hg1 : σ4.slices.getD σ1.slices.length [] =
                      σ2.slices.getD σ1.slices.length [] := by
                    have hlt : σ1.slices.length < σ2.slices.length := by
                      rw [hσ2s]; simp
                    have := storeExtends_getD _ _ hext4 σ1.slices.length (by simpa using hlt)
                    simpa using this
                  have hg2 : σ2.slices.getD σ1.slices.length [] = σ1.slices.getD r [] := by
                    rw [hσ2s, getD_concat_length]
                  have hg3 : σ1.slices.getD r [] = σ.slices.getD r [] :=
                    storeExtends_getD _ _ hext1 r hr2
                  rw [hg1, hg2, hg3]
              -- extras agree
              have hex : readExtras σ4 nd.extras = readExtras σ nd.extras :=
                readExtras_stable σ σ4 nd.extras hexc
                  (fun r hr => storeExtends_getD _ _ hext4σ r hr)
              -- assemble
              cases F with
              | zero => rfl
              | succ F0 =>
                simp only [readList]
                rw [hroot, hget]
                simp only []
                rw [hreadch4 F0, hreadrest F0, hrq, hex]

theorem readTree_eq_readList (F : Nat) (σ : CloneStore) (t : String) (a : Nat) :
    readList F σ [(t, a)] = (readTree F σ a).map (fun v => [(t, v)]) := by
  cases F with
  | zero => rfl
  | succ F0 =>
    rw [readList, readTree]
    cases hget : σ.nodes[a]? with
    | none => rfl
    | some nd =>
      simp only []
      cases hch : readList F0 σ nd.children with
      | none => rfl
      | some ch =>
        simp only []
        cases F0 with
        | zero => exact absurd hch (by simp [readList])
        | succ F1 => rfl

theorem readTree_of_readList_eq (F : Nat) (σA σB : CloneStore) (tA tB : String)
    (aA aB : Nat)
    (h : readList F σA [(tA, aA)] = readList F σB [(tB, aB)]) :
    readTree F σA aA = readTree F σB aB := by
  rw [readTree_eq_readList F σA tA aA, readTree_eq_readList F σB tB aB] at h
  cases h1 : readTree F σA aA with
  | none =>
    cases h2 : readTree F σB aB with
    | none => rfl
    | some v => rw [h1, h2] at h; simp at h
  | some v1 =>
    cases h2 : readTree F σB aB with
    | none => rw [h1, h2] at h; simp at h
    | some v2 =>
      rw [h1, h2] at h
      have h4 : [(tA, v1)] = [(tB, v2)] := Option.some.inj h
      have h6 : (tA, v1) = (tB, v2) := (List.cons.inj h4).1
      have h7 : v1 = v2 := congrArg Prod.snd h6
      rw [h7]

/-- C3 (amended): a successful clone returns a tree that reads back to the
same value as the original at every fuel; its root and every node it
allocates are fresh addresses, whose child pointers and required arrays
never point into the original region; and overwriting any node in the
fresh region (any node of the returned tree) leaves the original tree's
value untouched. -/
theorem C3_clone_isolation :
    ∀ (fuel : Nat) (σ σ' : CloneStore) (tag tag' : String) (a a' : Nat),
      NodesClosed σ → a < σ.nodes.length →
      cloneList fuel σ [(tag, a)] = some (σ', [(tag', a')]) →
      (∀ F, readTree F σ' a' = readTree F σ a)
      ∧ (σ.nodes.length ≤ a' ∧ a' < σ'.nodes.length)
      ∧ (∃ Δn, σ'.nodes = σ.nodes ++ Δn ∧
          ∀ nd ∈ Δn, (∀ p ∈ nd.children, σ.nodes.length ≤ p.2) ∧
            (∀ r, nd.required = some r → σ.slices.length ≤ r))
      ∧ (∀ (b : Nat) (nd : HNode) (F : Nat), σ.nodes.length ≤ b →
          readTree F (setNode σ' b nd) a = readTree F σ a) := by
  intro fuel σ σ' tag tag' a a' hcl ha h
  obtain ⟨hext, hfr, Δn, hΔ, hΔnd⟩ := cloneList_spec fuel σ [(tag, a)] σ' _ h
  have hlroot : ∀ p ∈ [(tag, a)], p.2 < σ.nodes.length := by
    intro p hp
    rcases List.mem_singleton.mp hp with rfl
    exact ha
  have hread := cloneList_read fuel σ [(tag, a)] σ' _ hcl hlroot h
  refine ⟨?_, ?_, ?_, ?_⟩
  · intro F
    exact readTree_of_readList_eq F σ' σ tag' tag a' a (hread F)
  · have := hfr (tag', a') (by simp)
    exact this
  · exact ⟨Δn, hΔ, fun nd hnd =>
      ⟨fun p hp => ((hΔnd nd hnd).1 p hp).1, fun r hr => ((hΔnd nd hnd).2 r hr).1⟩⟩
  · intro b nd F hb
    have hstab : readList F (setNode σ' b nd) [(tag, a)] = readList F σ [(tag, a)] :=
      readList_stable F σ (setNode σ' b nd) _ hcl
        (fun c hc => by
          show (σ'.nodes.set b nd)[c]? = σ.nodes[c]?
          rw [List.getElem?_set_ne (by omega : b ≠ c)]
          exact storeExtends_nodes_agree _ _ hext c hc)
        (fun r hr => storeExtends_getD _ _ hext r hr)
        hlroot
    exact readTree_of_readList_eq F (setNode σ' b nd) σ tag tag a a hstab

theorem cloneStore0_closed : NodesClosed cloneStore0 := by
  intro nd hnd
  simp only [cloneStore0, List.mem_singleton] at hnd
  subst hnd
  refine ⟨?_, trivial, ?_⟩
  · intro p hp
    simp [extrasNode] at hp
  · intro p hp
    simp only [extrasNode, List.mem_singleton] at hp
    subst hp
    show (0 : Nat) < 1
    exact Nat.one_pos

/-- Witness for the amended C3 theorem at a concrete one-node store. -/
theorem C3_clone_isolation_witness :
    (readTree 2 cloneStoreA 1 = readTree 2 cloneStore0 0) ∧
    (cloneStore0.nodes.length ≤ 1 ∧ 1 < cloneStoreA.nodes.length) ∧
    (readTree 2 (setNode cloneStoreA 1 emptyHNode) 0 = readTree 2 cloneStore0 0) := by
  have h := C3_clone_isolation 2 cloneStore0 cloneStoreA "" "" 0 1
    cloneStore0_closed (by decide) rfl
  exact ⟨h.1 2, h.2.1, h.2.2.2 1 emptyHNode 2 (by decide)⟩

/-- C3 counterexample: `maps.Copy` copies Extras shallowly, so an Extras
value that is a `[]string` (produced by a duplicated extras tag key,
reflect.go 1156) is shared by every clone: the two trees returned by two
cached calls are value-equal, yet writing through the shared backing array
changes the value of both. -/
theorem C3_extras_shared_counterexample :
    cloneList 2 cloneStore0 [("", 0)] = some (cloneStoreA, [("", 1)]) ∧
    cloneList 2 cloneStoreA [("", 0)] = some (cloneStore2, [("", 2)]) ∧
    readTree 2 cloneStore2 1 = readTree 2 cloneStore2 2 ∧
    readTree 2 (setSlice cloneStore2 0 ["y"]) 1 ≠ readTree 2 cloneStore2 1 ∧
    readTree 2 (setSlice cloneStore2 0 ["y"]) 2 ≠ readTree 2 cloneStore2 2 := by
  refine ⟨rfl, rfl, rfl, ?_, ?_⟩
  · intro h
    exact absurd (congrArg treeExtra0 h) (by decide)
  · intro h
    exact absurd (congrArg treeExtra0 h) (by decide)

/-! ## C1: register-before-fields, self-reference via ref, embedded divergence -/

theorem walkres_oof (w : WalkRes) (h : w.isOutOfFuel = true) : w = .outOfFuel := by
  cases w with
  | ok s d => exact absurd h (by simp [WalkRes.isOutOfFuel])
  | fatal m => exact absurd h (by simp [WalkRes.isOutOfFuel])
  | outOfFuel => rfl

theorem embedSelf_loop : ∀ fuel : Nat,
    (∀ defs st, (walkFields defaultReflector envEmbedSelf fuel defs st
        [embedSelfField]).isOutOfFuel = true) ∧
    (∀ t0, (t0 = GoType.ptr (.named "A2") ∨ t0 = .named "A2") →
      ∀ defs st, (reflectStructFields defaultReflector envEmbedSelf fuel defs
        t0 st).isOutOfFuel = true) := by
  intro fuel
  induction fuel with
  | zero =>
    constructor
    · intro defs st; rfl
    · intro t0 ht defs st
      rcases ht with rfl | rfl <;> rfl
  | succ fuel ih =>
    constructor
    · intro defs st
      have heqW : walkFields defaultReflector envEmbedSelf (fuel + 1) defs st
          [embedSelfField] =
          (match reflectStructFields defaultReflector envEmbedSelf fuel defs
              (.ptr (.named "A2")) st with
           | .ok st' defs' => walkFields defaultReflector envEmbedSelf fuel defs' st' []
           | other => other) := rfl
      rw [heqW, walkres_oof _ (ih.2 _ (Or.inl rfl) defs st)]
      rfl
    · intro t0 ht defs st
      rcases ht with rfl | rfl
      · have heqS : reflectStructFields defaultReflector envEmbedSelf (fuel + 1) defs
            (GoType.ptr (.named "A2")) st =
            walkFields defaultReflector envEmbedSelf fuel defs st [embedSelfField] := rfl
        rw [heqS]
        exact ih.1 defs st
      · have heqS : reflectStructFields defaultReflector envEmbedSelf (fuel + 1) defs
            (GoType.named "A2") st =
            walkFields defaultReflector envEmbedSelf fuel defs st [embedSelfField] := rfl
        rw [heqS]
        exact ih.1 defs st

theorem embedSelf_struct_oof : ∀ (fuel : Nat) (defs : Defs) (s : Schema),
    (reflectStruct defaultReflector envEmbedSelf fuel defs
      (.named "A2") s).isOutOfFuel = true := by
  intro fuel defs s
  cases fuel with
  | zero => rfl
  | succ fuel =>
    have heq : reflectStruct defaultReflector envEmbedSelf (fuel + 1) defs
        (.named "A2") s =
        (match reflectStructFields defaultReflector envEmbedSelf fuel
            (addDefinition defs (.named "A2") s) (.named "A2")
            (structInitNode defaultReflector (.named "A2") s) with
         | .ok s2 defs2 => .ok s2 (addDefinition defs2 (.named "A2") s2)
         | other => other) := rfl
    rw [heq, walkres_oof _ ((embedSelf_loop fuel).2 _ (Or.inr rfl) _ _)]
    rfl

theorem embedSelf_type_oof : ∀ (fuel : Nat) (defs : Defs),
    (reflectTypeToSchema defaultReflector envEmbedSelf fuel defs
      (.named "A2")).isOutOfFuel = true := by
  intro fuel defs
  cases fuel with
  | zero => rfl
  | succ fuel =>
    have heq : reflectTypeToSchema defaultReflector envEmbedSelf (fuel + 1) defs
        (.named "A2") =
        finishReflect defaultReflector (.named "A2")
          (reflectStruct defaultReflector envEmbedSelf fuel defs (.named "A2")
            emptySchema) := rfl
    rw [heq, walkres_oof _ (embedSelf_struct_oof fuel defs emptySchema)]
    rfl

theorem embedSelf_withID_oof : ∀ (fuel : Nat) (defs : Defs),
    (reflectTypeToSchemaWithID defaultReflector envEmbedSelf fuel defs
      (.named "A2")).isOutOfFuel = true := by
  intro fuel defs
  cases fuel with
  | zero => rfl
  | succ fuel =>
    have heq : reflectTypeToSchemaWithID defaultReflector envEmbedSelf (fuel + 1) defs
        (.named "A2") =
        (match reflectTypeToSchema defaultReflector envEmbedSelf fuel defs
            (.named "A2") with
         | .ok s defs' => .ok s defs'
         | other => other) := rfl
    rw [heq, walkres_oof _ (embedSelf_type_oof fuel defs)]
    rfl

/-- C1 counterexample: the legal Go declaration `type A2 struct { *A2 }`
embeds a pointer to itself; embedding expands the pointed-to struct's fields
inline instead of resolving a `$ref`, so the walk recurses forever: no fuel
suffices, the Go code overflows the stack. -/
theorem C1_embedded_self_pointer_diverges :
    ¬ WalkTerminates defaultReflector envEmbedSelf [] (.named "A2") := by
  intro h
  obtain ⟨fuel, h⟩ := h
  rw [embedSelf_withID_oof fuel []] at h
  cases h

theorem reflectStruct_registers_first (r : Reflector) (env : Env) (fuel : Nat)
    (defs : Defs) (n : String) (s : Schema) (fields : List StructField)
    (hn : n ≠ "") (hf : envLookup env n = some fields)
    (hig : r.IgnoredTypes.contains (.named n) = false) :
    reflectStruct r env (fuel + 1) defs (.named n) s =
      match reflectStructFields r env fuel (defsInsert defs n s) (.named n)
          (structInitNode r (.named n) s) with
      | .ok s2 defs2 => .ok s2 (addDefinition defs2 (.named n) s2)
      | other => other := by
  have h1 : reflectStruct r env (fuel + 1) defs (.named n) s =
      (match envLookup env n with
       | none => .fatal ("unknown struct type " ++ typeName (.named n))
       | some _fields =>
         if r.IgnoredTypes.contains (.named n) then
           .ok (structInitNode r (.named n) s)
             (addDefinition (addDefinition defs (.named n) s) (.named n)
               (structInitNode r (.named n) s))
         else
           match reflectStructFields r env fuel (addDefinition defs (.named n) s)
               (.named n) (structInitNode r (.named n) s) with
           | .ok s2 defs2 => .ok s2 (addDefinition defs2 (.named n) s2)
           | other => other) := rfl
  have hadd : addDefinition defs (.named n) s = defsInsert defs n s := by
    have h2 : addDefinition defs (.named n) s =
        if n = "" then defs else defsInsert defs n s := rfl
    rw [h2, if_neg hn]
  rw [h1, hf]
  simp only []
  rw [hig]
  simp only [Bool.false_eq_true, if_false, hadd]

theorem refOrReflect_registered_ptr (r : Reflector) (env : Env) (fuel : Nat)
    (defs : Defs) (n : String) (sA : Schema)
    (hn : n ≠ "") (hlk : r.Lookup = none) (hdnr : r.DoNotReference = false)
    (hmem : defsLookup defs n = some sA) :
    refOrReflectTypeToSchema r env (fuel + 4) defs (.ptr (.named n)) =
      .ok (emptySchema.setRef ("#/$defs/" ++ n)) defs := by
  have hid : lookupID r (.ptr (.named n)) = "" := by
    simp only [lookupID, hlk]
  have hidn : lookupID r (.named n) = "" := by
    simp only [lookupID, hlk]
  have hrdP : refDefinition r defs (.ptr (.named n)) = none := by
    have h2 : refDefinition r defs (.ptr (.named n)) =
        if r.DoNotReference then none else none := rfl
    rw [h2, hdnr]
    simp
  have hrdN : refDefinition r defs (.named n) =
      some (emptySchema.setRef ("#/$defs/" ++ n)) := by
    have h2 : refDefinition r defs (.named n) =
        if r.DoNotReference then none
        else if n = "" then none
        else match defsLookup defs n with
          | none => none
          | some _ => some (emptySchema.setRef ("#/$defs/" ++ n)) := rfl
    rw [h2, hdnr, if_neg hn, hmem]
    simp
  have hInner : refOrReflectTypeToSchema r env (fuel + 1) defs (.named n) =
      .ok (emptySchema.setRef ("#/$defs/" ++ n)) defs := by
    have h3 : refOrReflectTypeToSchema r env (fuel + 1) defs (.named n) =
        (if lookupID r (.named n) ≠ "" then
          .ok (emptySchema.setRef (lookupID r (.named n))) defs
         else
          match refDefinition r defs (.named n) with
          | some d => .ok d defs
          | none => reflectTypeToSchemaWithID r env fuel defs (.named n)) := rfl
    rw [h3, hidn, hrdN]
    simp
  have hType : reflectTypeToSchema r env (fuel + 2) defs (.ptr (.named n)) =
      .ok (emptySchema.setRef ("#/$defs/" ++ n)) defs := by
    have h4 : reflectTypeToSchema r env (fuel + 2) defs (.ptr (.named n)) =
        refOrReflectTypeToSchema r env (fuel + 1) defs (.named n) := rfl
    rw [h4, hInner]
  have hWith : reflectTypeToSchemaWithID r env (fuel + 3) defs (.ptr (.named n)) =
      .ok (emptySchema.setRef ("#/$defs/" ++ n)) defs := by
    have h5 : reflectTypeToSchemaWithID r env (fuel + 3) defs (.ptr (.named n)) =
        (match reflectTypeToSchema r env (fuel + 2) defs (.ptr (.named n)) with
         | .ok s defs' =>
           .ok (match r.Lookup with
                | some lk => if lk (.ptr (.named n)) ≠ "" then
                    s.setId (lk (.ptr (.named n))) else s
                | none => s) defs'
         | other => other) := rfl
    rw [h5, hType]
    simp only [hlk]
  have h6 : refOrReflectTypeToSchema r env (fuel + 4) defs (.ptr (.named n)) =
      (if lookupID r (.ptr (.named n)) ≠ "" then
        .ok (emptySchema.setRef (lookupID r (.ptr (.named n)))) defs
       else
        match refDefinition r defs (.ptr (.named n)) with
        | some d => .ok d defs
        | none => reflectTypeToSchemaWithID r env (fuel + 3) defs (.ptr (.named n))) := rfl
  rw [h6, hid, hrdP]
  simp only [ne_eq, not_true_eq_false, if_false]
  exact hWith

/-- C1 (amended): `reflectStruct` registers the node under the type's
display name before any field is resolved — the field walk starts from a
registry in which the name is already bound to the placeholder node — and a
pointer to a registered type resolves to a `$ref` to that definition; so
the canonical self-referential struct (a named pointer field to the
enclosing type) terminates, its registered definition holding a `$ref`
cycle.  An embedded (anonymous) self-pointer bypasses `$ref` resolution and
is excluded (it diverges). -/
theorem C1_register_before_fields_selfref :
    (∀ (r : Reflector) (env : Env) (fuel : Nat) (defs : Defs) (n : String)
        (s : Schema) (fields : List StructField),
      n ≠ "" → envLookup env n = some fields →
      r.IgnoredTypes.contains (.named n) = false →
      reflectStruct r env (fuel + 1) defs (.named n) s =
        match reflectStructFields r env fuel (defsInsert defs n s) (.named n)
            (structInitNode r (.named n) s) with
        | .ok s2 defs2 => .ok s2 (addDefinition defs2 (.named n) s2)
        | other => other)
    ∧ (∀ (r : Reflector) (env : Env) (fuel : Nat) (defs : Defs) (n : String)
        (sA : Schema),
      n ≠ "" → r.Lookup = none → r.DoNotReference = false →
      defsLookup defs n = some sA →
      refOrReflectTypeToSchema r env (fuel + 4) defs (.ptr (.named n)) =
        .ok (emptySchema.setRef ("#/$defs/" ++ n)) defs)
    ∧ WalkTerminates defaultReflector envSelfRef [] (.named "A")
    ∧ (walkOkSchema (reflectTypeToSchemaWithID defaultReflector envSelfRef 10 []
        (.named "A"))).map (fun s => s.core.ref) = some "#/$defs/A"
    ∧ ((walkOkDefs (reflectTypeToSchemaWithID defaultReflector envSelfRef 10 []
        (.named "A"))).bind (fun d => defsLookup d "A")).bind
        (fun sA => propertiesGet sA.core.properties "next") =
        some (emptySchema.setRef "#/$defs/A")
    ∧ ((walkOkDefs (reflectTypeToSchemaWithID defaultReflector envSelfRef 10 []
        (.named "A"))).bind (fun d => defsLookup d "A")).map
        (fun sA => sA.core.required) = some ["next"] :=
  ⟨reflectStruct_registers_first, refOrReflect_registered_ptr,
   ⟨10, rfl⟩, rfl, rfl, rfl⟩

/-- Witness for C1: the register-before-fields equation and the `$ref`
resolution instantiated at the canonical self-referential struct. -/
theorem C1_register_before_fields_selfref_witness :
    (reflectStruct defaultReflector envSelfRef 1 [] (.named "A") emptySchema =
      match reflectStructFields defaultReflector envSelfRef 0
          (defsInsert [] "A" emptySchema) (.named "A")
          (structInitNode defaultReflector (.named "A") emptySchema) with
      | .ok s2 defs2 => .ok s2 (addDefinition defs2 (.named "A") s2)
      | other => other) ∧
    refOrReflectTypeToSchema defaultReflector envSelfRef 4 [("A", emptySchema)]
        (.ptr (.named "A")) =
      .ok (emptySchema.setRef "#/$defs/A") [("A", emptySchema)] :=
  ⟨C1_register_before_fields_selfref.1 defaultReflector envSelfRef 0 [] "A"
      emptySchema [{ fname := "Next", jsonTag := "next", typ := .ptr (.named "A") }]
      (by decide) rfl rfl,
   C1_register_before_fields_selfref.2.1 defaultReflector envSelfRef 0
      [("A", emptySchema)] "A" emptySchema (by decide) rfl rfl rfl⟩
